import Mathlib

/- Shallow embedding of the core of devame/llm-compact-logger:
   the Root Cause Pattern Engine (src/enhancements/root-cause-analyzer.js)
   and the Persistent History Store (src/enhancements/persistent-index.js),
   together with proofs of the specification claims about them.

   Conventions of the embedding:
   * JS strings are Lean `String`s processed as `List Char`.
   * Optional/absent JS string fields are modelled as `""` when every use in
     the source is a truthiness test, and as `Option` otherwise.
   * Each regular expression of the source is hand-translated into an
     executable scanner with JS `String.match` semantics (leftmost match,
     greedy quantifiers); the scanner definitions cite their regex. -/

namespace CompactLogger

/-- Word character test, the Lean rendering of the regex word class
(ASCII letters, digits and underscore). -/
def isWordChar (c : Char) : Bool := c.isAlphanum || c == '_'

/-- Single quote character (code point 39). -/
def squoteC : Char := Char.ofNat 39

/-- Double quote character (code point 34). -/
def dquoteC : Char := Char.ofNat 34

/-- Backquote character (code point 96). -/
def bquoteC : Char := Char.ofNat 96

/-- Newline character (code point 10); the regex dot class matches every other
character. -/
def newlineC : Char := Char.ofNat 10

/-- One-character string holding a single quote. -/
def qS : String := String.mk [squoteC]

/-- Stable insertion into a sorted list: `a` goes before the first element `b`
with `le a b`. -/
def insertBy (le : α → α → Bool) (a : α) : List α → List α
  | [] => [a]
  | b :: l => if le a b then a :: b :: l else b :: insertBy le a l

/-- Stable sort.  JS Array.prototype.sort is stable and every stable sort of a
total preorder comparator computes the same list, so this structurally
recursive insertion sort embeds the JS sorts of the source. -/
def sortBy (le : α → α → Bool) : List α → List α
  | [] => []
  | a :: l => insertBy le a (sortBy le l)

/-- If `pat` is a prefix of `s`, return the remainder of `s` after it. -/
def stripLead : List Char → List Char → Option (List Char)
  | [], s => some s
  | _, [] => none
  | p :: ps, c :: cs => if p == c then stripLead ps cs else none

/-- Substring test: some position of the second list starts with `pat`. -/
def hasSub (pat : List Char) : List Char → Bool
  | [] => (stripLead pat []).isSome
  | c :: rest => (stripLead pat (c :: rest)).isSome || hasSub pat rest

/- Matchers of RootCauseAnalyzer.getPatternMatchers.  Each returns the list of
capture groups of the first (leftmost) match, so element i embeds the JS
match object entry i+1; `none` embeds a null match. -/

/-- Attempt, at the current position, the body of the two property-access
regexes (Cannot read propert(y or ies) of undefined/null (reading
quote word quote)); `mid` is the part between "propert(y|ies)" and the
captured word. -/
def tryPropAccess (mid : List Char) (s : List Char) : Option String :=
  match stripLead ("Cannot read propert".data) s with
  | none => none
  | some r1 =>
    match (stripLead ("y".data) r1).orElse (fun _ => stripLead ("ies".data) r1) with
    | none => none
    | some r2 =>
      match stripLead mid r2 with
      | none => none
      | some r3 =>
        let w := r3.takeWhile isWordChar
        if w.isEmpty then none
        else
          match stripLead [squoteC, ')'] (r3.drop w.length) with
          | none => none
          | some _ => some (String.mk w)

/-- Leftmost-match scan for `tryPropAccess`. -/
def findPropAccess (mid : List Char) : List Char → Option String
  | [] => none
  | c :: rest =>
    match tryPropAccess mid (c :: rest) with
    | some cap => some cap
    | none => findPropAccess mid rest

/-- Middle literal " of undefined (reading quote" of the first matcher. -/
def undefMid : List Char := " of undefined (reading ".data ++ [squoteC]

/-- Middle literal " of null (reading quote" of the second matcher. -/
def nullMid : List Char := " of null (reading ".data ++ [squoteC]

/-- Matcher regex of undefined_property_access. -/
def matchUndefProp (msg : String) : Option (List String) :=
  (findPropAccess undefMid msg.data).map (fun w => [w])

/-- Matcher regex of null_property_access. -/
def matchNullProp (msg : String) : Option (List String) :=
  (findPropAccess nullMid msg.data).map (fun w => [w])

/-- After " to be " or " to equal " the type-mismatch regex needs one more
dot-class character (anything but a newline). -/
def tmTail (l : List Char) : Bool :=
  match l with
  | [] => false
  | c :: _ => c != newlineC

/-- Literal alternatives " to be " / " to equal " followed by `tmTail`. -/
def tmLit (l : List Char) : Bool :=
  (match stripLead " to be ".data l with | some r => tmTail r | none => false)
  || (match stripLead " to equal ".data l with | some r => tmTail r | none => false)

/-- Greedy scan for the middle dot-plus of the type-mismatch regex: consume at
least one non-newline character, then require the literal tail somewhere. -/
def tmScan : List Char → Bool
  | [] => false
  | c :: rest => if c == newlineC then false else (tmLit rest || tmScan rest)

/-- Scan for "expected " and then `tmScan`, at every start position. -/
def tmFind : List Char → Bool
  | [] => false
  | c :: rest =>
    (match stripLead "expected ".data (c :: rest) with
     | some r => tmScan r
     | none => false) || tmFind rest

/-- Matcher regex of type_mismatch (case-insensitive, hence the lowering). -/
def matchTypeMismatch (msg : String) : Option (List String) :=
  if tmFind (msg.data.map Char.toLower) then some [] else none

/-- Tail of the array-length regex: " to have a length of ", a captured digit
run, " but got ", a second captured digit run. -/
def alLit (l : List Char) : Option (List String) :=
  match stripLead " to have a length of ".data l with
  | none => none
  | some r =>
    let d1 := r.takeWhile Char.isDigit
    if d1.isEmpty then none
    else
      match stripLead " but got ".data (r.drop d1.length) with
      | none => none
      | some r2 =>
        let d2 := r2.takeWhile Char.isDigit
        if d2.isEmpty then none else some [String.mk d1, String.mk d2]

/-- Greedy scan for the middle dot-plus of the array-length regex; deeper
positions are preferred, as the greedy quantifier takes the last viable one. -/
def alScan : List Char → Option (List String)
  | [] => none
  | c :: rest =>
    if c == newlineC then none
    else
      match alScan rest with
      | some caps => some caps
      | none => alLit rest

/-- Scan for "expected " and then `alScan`, at every start position. -/
def alFind : List Char → Option (List String)
  | [] => none
  | c :: rest =>
    match
      (match stripLead "expected ".data (c :: rest) with
       | some r => alScan r
       | none => none) with
    | some caps => some caps
    | none => alFind rest

/-- Matcher regex of array_length (case-insensitive). -/
def matchArrayLength (msg : String) : Option (List String) :=
  alFind (msg.data.map Char.toLower)

/-- Matcher regex of assertion_error: contains "AssertionError",
case-insensitively. -/
def matchAssertion (msg : String) : Option (List String) :=
  if hasSub "assertionerror".data (msg.data.map Char.toLower) then some [] else none

/-- Matcher regex of timeout: contains "timeout" or "timed out",
case-insensitively. -/
def matchTimeout (msg : String) : Option (List String) :=
  let l := msg.data.map Char.toLower
  if hasSub "timeout".data l || hasSub "timed out".data l then some [] else none

/-- Greedy scan for the leading captured dot-plus of the not-a-function and
not-defined regexes: consume non-newline characters (at least one) and require
the literal `lit` right after; the longest viable consumption wins. -/
def nfScan (lit : List Char) : List Char → Option (List Char)
  | [] => none
  | c :: rest =>
    if c == newlineC then none
    else
      match nfScan lit rest with
      | some cap => some (c :: cap)
      | none => if (stripLead lit rest).isSome then some [c] else none

/-- Leftmost-match scan for `nfScan`. -/
def nfFind (lit : List Char) : List Char → Option (List Char)
  | [] => none
  | c :: rest =>
    match nfScan lit (c :: rest) with
    | some cap => some cap
    | none => nfFind lit rest

/-- Matcher regex of not_a_function. -/
def matchNotAFunction (msg : String) : Option (List String) :=
  (nfFind " is not a function".data msg.data).map (fun w => [String.mk w])

/-- Matcher regex of undefined_reference. -/
def matchNotDefined (msg : String) : Option (List String) :=
  (nfFind " is not defined".data msg.data).map (fun w => [String.mk w])

/-- Error object of a compact failure record; empty strings model absent
fields, since every use in the source is a truthiness test. -/
structure ErrObj where
  type : String
  msg : String
deriving DecidableEq

/-- One stack frame of an enhanced stack; `at_` embeds the JS field `at`
(a Lean keyword), `test` the test-file flag. -/
structure StackFrame where
  at_ : String
  test : Bool
deriving DecidableEq

/-- Compact failure record as consumed by the enhancers: `t` test name, `f`
file (possibly file:line), `e` error object, `d` duration, `stk` enhanced
stack frames (a non-array stack behaves exactly like an absent one in
findCommonSourceFiles, so both are modelled as `none`). -/
structure Failure where
  t : String
  f : String
  e : Option ErrObj
  d : Nat
  stk : Option (List StackFrame)
deriving DecidableEq

/-- Output of a pattern's analyze function. -/
structure GroupSummary where
  pattern : String
  evidence : String
  suggestion : String
deriving DecidableEq

/-- One catalog matcher: name, regex (as `firstMatch`), confidence weight and
group summarization function.  Failures are paired with their array index,
which models JS object identity in the matched set. -/
structure Matcher where
  name : String
  firstMatch : String → Option (List String)
  confidence : Nat
  analyzeM : List ((Nat × Failure) × List String) → GroupSummary

/-- First capture of the first match of a group (JS matches[0].match[1]);
total function with default "" (in the source an empty `matches` would throw,
but the call site guards it with the group-size threshold). -/
def cap1 (ms : List ((Nat × Failure) × List String)) : String :=
  match ms with
  | [] => ""
  | m :: _ => m.2.headD ""

/-- Second capture of the first match of a group (JS matches[0].match[2]). -/
def cap2 (ms : List ((Nat × Failure) × List String)) : String :=
  match ms with
  | [] => ""
  | m :: _ => m.2.getD 1 ""

/-- Catalog entry undefined_property_access of getPatternMatchers. -/
def undefinedPropertyAccessMatcher : Matcher :=
  { name := "undefined_property_access"
    firstMatch := matchUndefProp
    confidence := 95
    analyzeM := fun ms =>
      let property := cap1 ms
      { pattern := "Accessing property " ++ qS ++ property ++ qS ++ " on undefined object"
        evidence := "All " ++ toString ms.length ++ " test(s) fail when accessing " ++
          qS ++ "." ++ property ++ qS
        suggestion := "Check if parent object exists before accessing " ++
          qS ++ "." ++ property ++ qS ++
          ", or verify the object structure returned by your code" } }
/-- Catalog entry null_property_access of getPatternMatchers. -/
def nullPropertyAccessMatcher : Matcher :=
  { name := "null_property_access"
    firstMatch := matchNullProp
    confidence := 95
    analyzeM := fun ms =>
      let property := cap1 ms
      { pattern := "Accessing property " ++ qS ++ property ++ qS ++ " on null object"
        evidence := "All " ++ toString ms.length ++ " test(s) fail when accessing " ++
          qS ++ "." ++ property ++ qS ++ " on null"
        suggestion := "Add null check before accessing " ++ qS ++ "." ++ property ++ qS ++
          ", or verify why the object is null" } }
/-- Catalog entry type_mismatch of getPatternMatchers. -/
def typeMismatchMatcher : Matcher :=
  { name := "type_mismatch"
    firstMatch := matchTypeMismatch
    confidence := 75
    analyzeM := fun ms =>
      { pattern := "Type or value mismatch in assertions"
        evidence := toString ms.length ++ " test(s) have unexpected return values or types"
        suggestion := "API or function may have changed - verify return types and values match test expectations" } }
/-- Catalog entry array_length of getPatternMatchers. -/
def arrayLengthMatcher : Matcher :=
  { name := "array_length"
    firstMatch := matchArrayLength
    confidence := 90
    analyzeM := fun ms =>
      { pattern := "Array length mismatch (expected " ++ cap1 ms ++ ", got " ++ cap2 ms ++ ")"
        evidence := toString ms.length ++ " test(s) have arrays with unexpected lengths"
        suggestion := "Data structure may have changed - check if items are being added, removed, or filtered unexpectedly" } }
/-- Catalog entry assertion_error of getPatternMatchers. -/
def assertionErrorMatcher : Matcher :=
  { name := "assertion_error"
    firstMatch := matchAssertion
    confidence := 60
    analyzeM := fun ms =>
      { pattern := "General assertion failures"
        evidence := toString ms.length ++ " test(s) failed assertions"
        suggestion := "Review test expectations and actual behavior - values or behavior may have changed" } }
/-- Catalog entry timeout of getPatternMatchers. -/
def timeoutMatcher : Matcher :=
  { name := "timeout"
    firstMatch := matchTimeout
    confidence := 85
    analyzeM := fun ms =>
      { pattern := "Test timeout errors"
        evidence := toString ms.length ++ " test(s) exceeded time limit"
        suggestion := "Async operations may not be completing - check for missing awaits, infinite loops, or performance issues" } }
/-- Catalog entry not_a_function of getPatternMatchers. -/
def notAFunctionMatcher : Matcher :=
  { name := "not_a_function"
    firstMatch := matchNotAFunction
    confidence := 95
    analyzeM := fun ms =>
      let target := cap1 ms
      { pattern := qS ++ target ++ qS ++ " is not a function"
        evidence := toString ms.length ++ " test(s) trying to call a non-function"
        suggestion := "Check for typos, missing imports, or incorrect object destructuring" } }
/-- Catalog entry undefined_reference of getPatternMatchers. -/
def undefinedReferenceMatcher : Matcher :=
  { name := "undefined_reference"
    firstMatch := matchNotDefined
    confidence := 95
    analyzeM := fun ms =>
      let nm := cap1 ms
      { pattern := qS ++ nm ++ qS ++ " is not defined"
        evidence := toString ms.length ++ " test(s) reference undefined variable"
        suggestion := "Check for missing imports, typos in variable names, or scope issues" } }

/-- The fixed matcher catalog of RootCauseAnalyzer.getPatternMatchers, in
source order; confidence weights are the source decimals scaled by 100. -/
def getPatternMatchers : List Matcher :=
  [undefinedPropertyAccessMatcher, nullPropertyAccessMatcher, typeMismatchMatcher,
   arrayLengthMatcher, assertionErrorMatcher, timeoutMatcher, notAFunctionMatcher,
   undefinedReferenceMatcher]

/-- Intermediate group of groupByPattern. -/
structure PatternGroup where
  pattern : String
  confidence : Nat
  failures : List (Nat × Failure)
  suggestion : String
  evidence : String
deriving DecidableEq

/-- Match attempt of a matcher on a failure: the source only consults the
regex when f.e and f.e.msg are truthy. -/
def matchOf (m : Matcher) (f : Failure) : Option (List String) :=
  match f.e with
  | none => none
  | some e => if e.msg = "" then none else m.firstMatch e.msg

/-- Loop body of groupByPattern: try each matcher in catalog order on the
not-yet-claimed failures; a matcher reaching minGroupSize claims its matches.
Returns the formed groups and the unclaimed remainder. -/
def groupLoop (minGroupSize : Nat) :
    List Matcher → List (Nat × Failure) → List PatternGroup × List (Nat × Failure)
  | [], remaining => ([], remaining)
  | m :: ms, remaining =>
    let hits := remaining.filterMap (fun f => (matchOf m f.2).map (fun caps => (f, caps)))
    if minGroupSize ≤ hits.length then
      let rest := remaining.filter (fun f => (matchOf m f.2).isNone)
      let p := groupLoop minGroupSize ms rest
      let s := m.analyzeM hits
      ({ pattern := s.pattern
         confidence := m.confidence
         failures := hits.map (fun x => x.1)
         suggestion := s.suggestion
         evidence := s.evidence } :: p.1, p.2)
    else
      groupLoop minGroupSize ms remaining

/-- Catch-all group for failures no matcher claimed. -/
def catchAllGroup (ungrouped : List (Nat × Failure)) : PatternGroup :=
  { pattern := "Various unrelated errors"
    confidence := 30
    failures := ungrouped
    suggestion := "Review each failure individually"
    evidence := toString ungrouped.length ++ " test(s) with different error patterns" }

/-- RootCauseAnalyzer.groupByPattern. -/
def groupByPattern (minGroupSize : Nat) (failures : List (Nat × Failure)) :
    List PatternGroup :=
  let p := groupLoop minGroupSize getPatternMatchers failures
  if p.2.length = 0 then p.1 else p.1 ++ [catchAllGroup p.2]

/-- Capture scanner of the frame-file regex (captured dot-plus, colon, digit
run): consume non-newline characters greedily and require colon-digit after. -/
def fileLocScan : List Char → Option (List Char)
  | [] => none
  | c :: rest =>
    if c == newlineC then none
    else
      match fileLocScan rest with
      | some cap => some (c :: cap)
      | none =>
        match rest with
        | c2 :: c3 :: _ => if c2 == ':' && c3.isDigit then some [c] else none
        | _ => none

/-- Leftmost-match scan for `fileLocScan`. -/
def fileLocFind : List Char → Option (List Char)
  | [] => none
  | c :: rest =>
    match fileLocScan (c :: rest) with
    | some cap => some cap
    | none => fileLocFind rest

/-- Embeds frame.at.match of the frame-file regex; returns its capture. -/
def frameFile (src : String) : Option String := (fileLocFind src.data).map String.mk

/-- Source files of one failure: non-test frames of an enhanced stack, mapped
through `frameFile`, nulls dropped. -/
def sourceFilesOf (f : Failure) : List String :=
  match f.stk with
  | none => []
  | some frames => (frames.filter (fun fr => !fr.test)).filterMap (fun fr => frameFile fr.at_)

/-- Deduplication keeping first occurrences, like spreading a JS Set or
iterating distinct grouping keys. -/
def dedupFirstAux [DecidableEq α] (seen : List α) : List α → List α
  | [] => []
  | x :: xs => if seen.contains x then dedupFirstAux seen xs else x :: dedupFirstAux (x :: seen) xs

/-- Increment the count of a key in an association list kept in insertion
order, like a JS object used as a counter. -/
def bumpCount : List (String × Nat) → String → List (String × Nat)
  | [], k => [(k, 1)]
  | (k', n) :: rest, k =>
    if k' == k then (k', n + 1) :: rest else (k', n) :: bumpCount rest k

/-- One suspected file of a group; percentage embeds Math.round of the JS
float computation as exact half-up rounding. -/
structure SuspectFile where
  file : String
  count : Nat
  percentage : Nat
deriving DecidableEq

/-- RootCauseAnalyzer.findCommonSourceFiles. -/
def findCommonSourceFiles (failures : List (Nat × Failure)) : List SuspectFile :=
  if failures.length = 0 then []
  else
    let perTest := failures.map (fun f => dedupFirstAux [] (sourceFilesOf f.2))
    let counts := perTest.foldl (fun acc files => files.foldl bumpCount acc) []
    let kept := counts.filter (fun fc => 1 < fc.2)
    let sorted := sortBy (fun a b => decide (b.2 ≤ a.2)) kept
    (sorted.take 3).map (fun fc =>
      { file := fc.1
        count := fc.2
        percentage := (200 * fc.2 + failures.length) / (2 * failures.length) })

/-- One root cause of the analyzer output. -/
structure RootCause where
  pattern : String
  confidence : Nat
  affectedTests : List String
  count : Nat
  suspectedFiles : List SuspectFile
  suggestion : String
  evidence : String
deriving DecidableEq

/-- RootCauseAnalyzer.analyze over indexed failures; the final sort is the
stable JS sort with comparator b.confidence - a.confidence. -/
def analyze (minGroupSize : Nat) (failures : List (Nat × Failure)) : List RootCause :=
  if failures.length = 0 then []
  else
    let groups := groupByPattern minGroupSize failures
    sortBy (fun a b => decide (b.confidence ≤ a.confidence))
      (groups.map (fun g =>
        { pattern := g.pattern
          confidence := g.confidence
          affectedTests := g.failures.map (fun f => f.2.t)
          count := g.failures.length
          suspectedFiles := findCommonSourceFiles g.failures
          suggestion := g.suggestion
          evidence := g.evidence }))

/-- Constructor default of RootCauseAnalyzer: options.minGroupSize or 2
(a missing or zero option falls back to 2). -/
def mkMinGroupSize (opt : Nat) : Nat := if opt = 0 then 2 else opt

/-- analyze on a plain failure array; indexing models object identity. -/
def analyzeFailures (minGroupSize : Nat) (failures : List Failure) : List RootCause :=
  analyze minGroupSize failures.enum

/- Persistent History Store (src/enhancements/persistent-index.js).
   Timestamps are modelled as integers: SQLite stores ISO-8601 text whose
   lexicographic order coincides with chronological order, and
   datetime(now, -N days) becomes now - N * 86400. -/

/-- Parse, after a colon, the digits-colon-digits tail of the line-column
regex of hashError; returns the remainder after the match.  The greedy digit
runs are maximal, exactly the takeWhile runs, since a colon is not a digit. -/
def tryLC (s : List Char) : Option (List Char) :=
  let d1 := s.takeWhile Char.isDigit
  if d1.isEmpty then none
  else
    match s.drop d1.length with
    | c :: t =>
      if c == ':' then
        let d2 := t.takeWhile Char.isDigit
        if d2.isEmpty then none else some (t.drop d2.length)
      else none
    | [] => none

/-- First normalization pass of hashError: replace every
colon-digits-colon-digits group with colon-X-colon-X, scanning left to right
without overlap (JS global replace).  Structural recursion on a fuel that is
initialized with the list length, which bounds the number of scan steps. -/
def p1 : Nat → List Char → List Char
  | 0, s => s
  | _ + 1, [] => []
  | fuel + 1, c :: rest =>
    if c == ':' then
      match tryLC rest with
      | some rem => ':' :: 'X' :: ':' :: 'X' :: p1 fuel rem
      | none => ':' :: p1 fuel rest
    else c :: p1 fuel rest

/-- Second pass of hashError: replace every maximal digit run with N; the
boolean state records being inside a run whose N was already emitted. -/
def sqd : Bool → List Char → List Char
  | _, [] => []
  | inRun, c :: rest =>
    if c.isDigit then
      if inRun then sqd true rest else 'N' :: sqd true rest
    else c :: sqd false rest

/-- Remainder after the first occurrence of the quote `q`, if any. -/
def afterClose (q : Char) (s : List Char) : Option (List Char) :=
  match s.dropWhile (fun c => !(c == q)) with
  | _ :: t => some t
  | [] => none

/-- Quote-literal pass of hashError, one per quote kind: replace every
quote-nonquotes-quote literal with STR, scanning left to right. -/
def pQ (q : Char) : Nat → List Char → List Char
  | 0, s => s
  | _ + 1, [] => []
  | fuel + 1, c :: rest =>
    if c == q then
      match afterClose q rest with
      | some rem => 'S' :: 'T' :: 'R' :: pQ q fuel rem
      | none => c :: pQ q fuel rest
    else c :: pQ q fuel rest

/-- First pass at its canonical fuel. -/
def runP1 (l : List Char) : List Char := p1 l.length l

/-- Quote pass at its canonical fuel. -/
def runPQ (q : Char) (l : List Char) : List Char := pQ q l.length l

/-- The two digit passes of hashError composed. -/
def normD12 (l : List Char) : List Char := sqd false (runP1 l)

/-- The five replace passes of hashError in source order: line-column pairs,
digit runs, then single-, double- and back-quoted string literals. -/
def normChars (l : List Char) : List Char :=
  runPQ bquoteC (runPQ dquoteC (runPQ squoteC (normD12 l)))

/-- Segment abstraction for the digit passes: a maximal digit run or a single
non-digit character. -/
inductive Seg where
  | run : Seg
  | ch : Char → Seg
deriving DecidableEq

/-- Digit-run skeleton scanner; the boolean records being inside a run. -/
def skelGo : Bool → List Char → List Seg
  | _, [] => []
  | inRun, c :: rest =>
    if c.isDigit then
      (if inRun then skelGo true rest else Seg.run :: skelGo true rest)
    else Seg.ch c :: skelGo false rest

/-- Digit-run skeleton of a character list: maximal digit runs collapse to
one `run` segment, every other character stays; two lists have equal
skeletons exactly when they differ only in the contents of their maximal
digit runs. -/
def skel (l : List Char) : List Seg := skelGo false l

/-- Segment-level rendering of the first hashError pass: a colon segment
followed by run, colon, run becomes colon X colon X. -/
def p1s : List Seg → List Seg
  | [] => []
  | Seg.run :: rest => Seg.run :: p1s rest
  | Seg.ch c :: Seg.run :: Seg.ch c2 :: Seg.run :: rest2 =>
    if c == ':' then
      (if c2 == ':' then
        Seg.ch ':' :: Seg.ch 'X' :: Seg.ch ':' :: Seg.ch 'X' :: p1s rest2
      else Seg.ch c :: p1s (Seg.run :: Seg.ch c2 :: Seg.run :: rest2))
    else Seg.ch c :: p1s (Seg.run :: Seg.ch c2 :: Seg.run :: rest2)
  | Seg.ch c :: rest => Seg.ch c :: p1s rest

/-- Segment-level rendering of the second hashError pass: every remaining
run becomes the letter N. -/
def p2s : List Seg → List Char
  | [] => []
  | Seg.run :: rest => 'N' :: p2s rest
  | Seg.ch c :: rest => c :: p2s rest

/-- Digit normalization factored through the skeleton. -/
def normDs (segs : List Seg) : List Char := p2s (p1s segs)

/-- One quoted span of a message layout: the quote kind and the literal
content between the quotes. -/
structure SpanT where
  q : Char
  content : List Char
deriving DecidableEq

/-- Render of spans alternating with the unquoted chunk following each. -/
def renderSpans : List (SpanT × List Char) → List Char
  | [] => []
  | (sp, o) :: rest => sp.q :: (sp.content ++ (sp.q :: (o ++ renderSpans rest)))

/-- Render of a message layout: leading unquoted chunk, then each quoted
span followed by its unquoted chunk. -/
def renderLay (o : List Char) (spans : List (SpanT × List Char)) : List Char :=
  o ++ renderSpans spans

/-- The three quote characters of hashError. -/
def quoteChars : List Char := [squoteC, dquoteC, bquoteC]

/-- Chunk holding no quote character of any kind. -/
def quoteFree (l : List Char) : Prop := ∀ c ∈ l, c ∉ quoteChars

/-- Well-formed layout: the unquoted chunks and the span contents are
quote-free and every span uses one of the three quote kinds. -/
def WFLay (o : List Char) (spans : List (SpanT × List Char)) : Prop :=
  quoteFree o ∧ ∀ p ∈ spans,
    p.1.q ∈ quoteChars ∧ quoteFree p.1.content ∧ quoteFree p.2

instance quoteFreeDec (l : List Char) : Decidable (quoteFree l) :=
  List.decidableBAll _ l

instance wfLayDec (o : List Char) (spans : List (SpanT × List Char)) :
    Decidable (WFLay o spans) :=
  inferInstanceAs (Decidable (quoteFree o ∧ ∀ p ∈ spans,
    p.1.q ∈ quoteChars ∧ quoteFree p.1.content ∧ quoteFree p.2))

/-- Pointwise similarity of span lists: same quote kinds in the same order,
skeleton-equal following chunks, arbitrary literal contents. -/
def SimilarSpans : List (SpanT × List Char) → List (SpanT × List Char) → Prop
  | [], [] => True
  | (sp1, o1) :: r1, (sp2, o2) :: r2 =>
    sp1.q = sp2.q ∧ skel o1 = skel o2 ∧ SimilarSpans r1 r2
  | _, _ => False

/-- Pointwise equality of span lists up to literal contents: same quote
kinds and equal following chunks, arbitrary contents. -/
def EqSpans : List (SpanT × List Char) → List (SpanT × List Char) → Prop
  | [], [] => True
  | (sp1, o1) :: r1, (sp2, o2) :: r2 =>
    sp1.q = sp2.q ∧ o1 = o2 ∧ EqSpans r1 r2
  | _, _ => False

/-- The replacement text of the quote passes. -/
def STRc : List Char := ['S', 'T', 'R']

/-- Digit-normalization image of a layout, spanwise. -/
def mapD : List (SpanT × List Char) → List (SpanT × List Char)
  | [] => []
  | (sp, o) :: rest =>
    ({ q := sp.q, content := normD12 sp.content }, normD12 o) :: mapD rest

/-- Effect of one quote pass on a layout: spans of the scanned kind dissolve
into the surrounding unquoted text as STR, the others stay. -/
def eraseLay (qc : Char) :
    List Char → List (SpanT × List Char) → List Char × List (SpanT × List Char)
  | o, [] => (o, [])
  | o, (sp, o2) :: rest =>
    if sp.q == qc then eraseLay qc (o ++ STRc ++ o2) rest
    else
      match eraseLay qc o2 rest with
      | (oNext, spans2) => (o, (sp, oNext) :: spans2)

/-- Normalization of hashError on strings. -/
def normalizeMsg (s : String) : String := String.mk (normChars s.data)

/-- PersistentIndex.hashError: nothing for a missing or empty message (JS
truthiness), otherwise the MD5 digest of the normalized message.  The digest
is modelled by the normalized text itself: MD5 of a fixed pure function is
determined by the normalized text and equal normalized texts give equal
digests, which is all any claim uses. -/
def hashError (e : ErrObj) : Option String :=
  if e.msg = "" then none else some (normalizeMsg e.msg)

/-- One row of the runs table. -/
structure RunRow where
  id : Nat
  timestamp : Int
  gitHash : Option String
  gitBranch : Option String
  totalTests : Nat
  passed : Nat
  failed : Nat
  durationMs : Nat
  metadata : String
deriving DecidableEq

/-- One row of the results table; stackTrace keeps the frames themselves, the
injective JSON serialization being abstracted away. -/
structure ResultRow where
  id : Nat
  runId : Nat
  testName : String
  file : String
  status : String
  durationMs : Nat
  errorType : Option String
  errorMessage : Option String
  errorHash : Option String
  stackTrace : Option (List StackFrame)
deriving DecidableEq

/-- Contents of the SQLite database: the two tables plus the AUTOINCREMENT
counters (SQLite row ids start at 1). -/
structure DbState where
  runs : List RunRow
  results : List ResultRow
  nextRunId : Nat
  nextResultId : Nat
deriving DecidableEq

/-- A freshly created database file after setupSchema. -/
def emptyDb : DbState :=
  { runs := [], results := [], nextRunId := 1, nextResultId := 1 }

/-- In-memory state of a PersistentIndex instance.  The initPromise is not
modelled: the single-flight lazy initialization collapses to one idempotent
state transition in this sequential embedding. -/
structure IndexState where
  enabled : Bool
  db : Option DbState
  retentionDays : Nat
  trackGit : Bool
  initialized : Bool
deriving DecidableEq

/-- PersistentIndex constructor: enabled unless the option says false, JS
or-default 30 for retentionDays (absent and 0 both fall back to 30), no open
database, not initialized. -/
def mkIndex (enabledOpt : Bool) (retentionOpt : Nat) (trackGitOpt : Bool) :
    IndexState :=
  { enabled := enabledOpt
    db := none
    retentionDays := if retentionOpt = 0 then 30 else retentionOpt
    trackGit := trackGitOpt
    initialized := false }

/-- UTC calendar date of an instant, as days since the epoch: the
zero-padded YYYY-MM-DD prefix of both timestamp text formats orders exactly
like this number. -/
def dayOf (t : Int) : Int := t.fdiv 86400

/-- The raw SQL text comparison stored > cutoff between a stored
new Date().toISOString() value (format YYYY-MM-DDTHH:MM:SS.sssZ) and a
SQLite datetime(now, ...) value (format YYYY-MM-DD HH:MM:SS): when the date
prefixes differ they decide the comparison numerically, and when they are
equal the eleventh character decides and the T of the ISO format outranks
the space of the datetime format, so the stored value always wins.  Hence
the comparison holds exactly when the stored UTC date is on or after the
cutoff UTC date, regardless of either time of day. -/
def isoAfterDt (iso dt : Int) : Bool := decide (dayOf dt ≤ dayOf iso)

/-- The raw SQL text comparison stored < cutoff, dually: it holds exactly
when the stored UTC date is strictly before the cutoff UTC date. -/
def isoBeforeDt (iso dt : Int) : Bool := decide (dayOf iso < dayOf dt)

/-- Retention cutoff instant: SQLite datetime(now, -N days); only its UTC
date takes part in the comparisons above. -/
def cutoffOf (retentionDays : Nat) (now : Int) : Int :=
  now - retentionDays * 86400

/-- Table-level part of PersistentIndex.cleanup: first delete the result rows
whose run is below the cutoff (the IN-subquery over runs), then delete those
runs, exactly in source order (children before parents).  The DELETEs compare
the stored ISO text with the datetime text, which is date-granular at the
boundary, so exactly the runs whose UTC date is strictly before the cutoff
UTC date go. -/
def cleanupDb (retentionDays : Nat) (now : Int) (db : DbState) : DbState :=
  let oldIds := (db.runs.filter
    (fun r => isoBeforeDt r.timestamp (cutoffOf retentionDays now))).map (fun r => r.id)
  { db with
    results := db.results.filter (fun res => !(oldIds.contains res.runId))
    runs := db.runs.filter
      (fun r => !(isoBeforeDt r.timestamp (cutoffOf retentionDays now))) }

/-- PersistentIndex.cleanup with its guards: no database, disabled store or
falsy retentionDays all return without touching anything. -/
def cleanupIdx (now : Int) (st : IndexState) : IndexState :=
  match st.db with
  | none => st
  | some db =>
    if !st.enabled then st
    else if st.retentionDays = 0 then st
    else { st with db := some (cleanupDb st.retentionDays now db) }

/-- PersistentIndex.initialize as one idempotent state transition.  `openOk`
models whether better-sqlite3 loads and the database file opens; on failure
the store downgrades itself to disabled and never raises.  The retention
sweep runs as part of initialization, as in the source. -/
def initStore (openOk : Bool) (now : Int) (st : IndexState) : IndexState :=
  if st.initialized then st
  else if !st.enabled then { st with initialized := true }
  else if !openOk then { st with enabled := false, initialized := true }
  else
    let st1 := { st with db := some (st.db.getD emptyDb) }
    let st2 := cleanupIdx now st1
    { st2 with initialized := true }

/-- Compact run summary as consumed by recordTestRun (summary.tot, .pas,
.fai); the timestamp field belongs to the RunSummary data model of the
specification and is carried by duck-typed summary objects, but the source
never reads it. -/
structure RunSummary where
  timestamp : Int
  tot : Nat
  pas : Nat
  fai : Nat
deriving DecidableEq

/-- Metadata argument of recordTestRun: the dur field and the JSON
serialization of the whole object (serialization abstracted). -/
structure MetaObj where
  dur : Nat
  json : String
deriving DecidableEq

/-- PersistentIndex.getGitInfo: nothing when trackGit is off; otherwise the
outcome of the two git commands, abstracted as the parameter `git` (none
models execSync throwing outside a repository). -/
def getGitInfo (trackGit : Bool) (git : Option (String × String)) :
    Option String × Option String :=
  if !trackGit then (none, none)
  else
    match git with
    | some p => (some p.1, some p.2)
    | none => (none, none)

/-- PersistentIndex.recordTestRun: after lazy initialization, a no-op
returning null when the database is absent or the store disabled; otherwise
inserts a run row stamped with the current wall-clock time (new Date(), the
`now` parameter) and returns the generated id. -/
def recordTestRun (openOk : Bool) (now : Int) (git : Option (String × String))
    (st : IndexState) (summary : RunSummary) (meta : MetaObj) :
    IndexState × Option Nat :=
  let st1 := initStore openOk now st
  match st1.db with
  | none => (st1, none)
  | some db =>
    if !st1.enabled then (st1, none)
    else
      let gi := getGitInfo st1.trackGit git
      let row : RunRow :=
        { id := db.nextRunId
          timestamp := now
          gitHash := gi.1
          gitBranch := gi.2
          totalTests := summary.tot
          passed := summary.pas
          failed := summary.fai
          durationMs := meta.dur
          metadata := meta.json }
      let db2 : DbState :=
        { db with runs := db.runs ++ [row], nextRunId := db.nextRunId + 1 }
      ({ st1 with db := some db2 }, some db.nextRunId)

/-- File column of a result row: the part of test.f before the first colon,
with JS or-default unknown when that part is empty or f is absent. -/
def fileColumn (f : String) : String :=
  let base := f.data.takeWhile (fun c => !(c == ':'))
  if base.isEmpty then "unknown" else String.mk base

/-- Row built by the prepared insert inside recordTestResults for one test
record: status fail exactly when an error object is present, error fields
null on absence or emptiness (JS or-null), errorHash through hashError. -/
def toResultRow (rid : Nat) (resultId : Nat) (test : Failure) : ResultRow :=
  { id := resultId
    runId := rid
    testName := test.t
    file := fileColumn test.f
    status := if test.e.isSome then "fail" else "pass"
    durationMs := test.d
    errorType :=
      match test.e with
      | none => none
      | some e => if e.type = "" then none else some e.type
    errorMessage :=
      match test.e with
      | none => none
      | some e => if e.msg = "" then none else some e.msg
    errorHash :=
      match test.e with
      | none => none
      | some e => hashError e
    stackTrace := test.stk }

/-- Sequential inserts of the transaction body of recordTestResults;
`insertFails` is the oracle for SQLite insert errors (constraint violations,
I/O): a failing insert throws and aborts the body. -/
def runInserts (insertFails : Failure → Bool) (rid : Nat) :
    List Failure → DbState → Except Unit DbState
  | [], db => Except.ok db
  | test :: rest, db =>
    if insertFails test then Except.error ()
    else
      runInserts insertFails rid rest
        { db with
          results := db.results ++ [toResultRow rid db.nextResultId test]
          nextResultId := db.nextResultId + 1 }

/-- Rows produced by a fully successful insert batch, with the consecutive
AUTOINCREMENT ids starting at `startId`. -/
def insertedRows (rid : Nat) (startId : Nat) : List Failure → List ResultRow
  | [] => []
  | t :: rest => toResultRow rid startId t :: insertedRows rid (startId + 1) rest

/-- Store state after a fully successful recordTestResults batch: all rows of
the batch appended, AUTOINCREMENT counter advanced by the batch length. -/
def appendedState (st : IndexState) (db : DbState) (rid : Nat)
    (tests : List Failure) : IndexState :=
  let db2 : DbState :=
    { db with
      results := db.results ++ insertedRows rid db.nextResultId tests
      nextResultId := db.nextResultId + tests.length }
  { st with db := some db2 }

/-- The better-sqlite3 transaction wrapper: run the insert loop; when the
body throws, the transaction rolls back to the pre-transaction state (the
documented contract of the library, on which the source relies). -/
def transactionIns (insertFails : Failure → Bool) (rid : Nat)
    (tests : List Failure) (db : DbState) : DbState :=
  match runInserts insertFails rid tests db with
  | Except.ok db2 => db2
  | Except.error _ => db

/-- PersistentIndex.recordTestResults: after lazy initialization, a no-op
when the database is absent, the store disabled or the runId null; otherwise
the transactional batch insert.  A thrown transaction is caught (warn only),
leaving the rolled-back state. -/
def recordTestResults (openOk : Bool) (now : Int) (insertFails : Failure → Bool)
    (st : IndexState) (runId : Option Nat) (tests : List Failure) : IndexState :=
  let st1 := initStore openOk now st
  match st1.db, runId with
  | some db, some rid =>
    if !st1.enabled then st1
    else { st1 with db := some (transactionIns insertFails rid tests db) }
  | _, _ => st1

/-- One row of the getTestHistory result set (SELECT r.*, runs.timestamp,
runs.git_hash, runs.git_branch). -/
structure HistoryRow where
  res : ResultRow
  timestamp : Int
  gitHash : Option String
  gitBranch : Option String
deriving DecidableEq

/-- PersistentIndex.getTestHistory: the join of results with runs restricted
to the test name, most recent run first, limited.  Run ids are unique by
construction, so the join is a lookup; the order among equal timestamps is
unspecified in SQL and modelled by the stable sort. -/
def getTestHistory (openOk : Bool) (now : Int) (st : IndexState)
    (testName : String) (limit : Nat) : IndexState × List HistoryRow :=
  let st1 := initStore openOk now st
  match st1.db with
  | none => (st1, [])
  | some db =>
    if !st1.enabled then (st1, [])
    else
      let joined := db.results.filterMap (fun r =>
        if r.testName == testName then
          match db.runs.find? (fun run => run.id == r.runId) with
          | some run => some
              { res := r
                timestamp := run.timestamp
                gitHash := run.gitHash
                gitBranch := run.gitBranch }
          | none => none
        else none)
      (st1, (sortBy (fun a b => decide (b.timestamp ≤ a.timestamp)) joined).take limit)

/-- Flakiness statistics of getFlakiness.  passRateTenths embeds the
toFixed(1) percentage as tenths of a percent with exact half-up rounding
(the IEEE double computation of the source abstracted to exact arithmetic). -/
structure FlakinessResult where
  passRateTenths : Nat
  isFlaky : Bool
  totalRuns : Nat
  passes : Nat
  failures : Nat
deriving DecidableEq

/-- The rows counted by the getFlakiness query: results of the test whose
owning run passes the WHERE comparison runs.timestamp > datetime(now,
-windowDays days).  That comparison is raw text between the ISO format and
the datetime format and therefore date-granular (see isoAfterDt): it admits
every run whose UTC date is on or after the cutoff UTC date, including runs
up to a day older than the window. -/
def windowEntries (db : DbState) (testName : String) (windowDays : Nat)
    (now : Int) : List ResultRow :=
  db.results.filter (fun r =>
    r.testName == testName &&
    (match db.runs.find? (fun run => run.id == r.runId) with
     | some run => isoAfterDt run.timestamp (now - windowDays * 86400)
     | none => false))

/-- PersistentIndex.getFlakiness: nothing when disabled or when the test has
no rows in the window; otherwise the aggregate row. -/
def getFlakiness (openOk : Bool) (now : Int) (st : IndexState)
    (testName : String) (windowDays : Nat) :
    IndexState × Option FlakinessResult :=
  let st1 := initStore openOk now st
  match st1.db with
  | none => (st1, none)
  | some db =>
    if !st1.enabled then (st1, none)
    else
      let es := windowEntries db testName windowDays now
      let totalRuns := es.length
      let passes := (es.filter (fun r => r.status == "pass")).length
      let fails := (es.filter (fun r => r.status == "fail")).length
      if totalRuns = 0 then (st1, none)
      else
        (st1, some
          { passRateTenths := (2000 * passes + totalRuns) / (2 * totalRuns)
            isFlaky := decide (0 < passes) && decide (0 < fails)
            totalRuns := totalRuns
            passes := passes
            failures := fails })

/-- One row of the findSimilarFailures result set. -/
structure SimilarRow where
  testName : String
  file : String
  occurrences : Nat
deriving DecidableEq

/-- The rows aggregated by findSimilarFailures: failing results carrying
exactly the requested hash. -/
def similarMatches (db : DbState) (errorHash : String) : List ResultRow :=
  db.results.filter (fun r =>
    r.errorHash == some errorHash && r.status == "fail")

/-- PersistentIndex.findSimilarFailures: group the matching rows by
(testName, file) with their counts, order by count descending (ties are
unspecified in SQL and modelled by first-occurrence order under the stable
sort), capped at 10.  A falsy errorHash argument short-circuits to empty. -/
def findSimilarFailures (openOk : Bool) (now : Int) (st : IndexState)
    (errorHash : String) : IndexState × List SimilarRow :=
  let st1 := initStore openOk now st
  match st1.db with
  | none => (st1, [])
  | some db =>
    if !st1.enabled then (st1, [])
    else if errorHash = "" then (st1, [])
    else
      let ms := similarMatches db errorHash
      let keys := dedupFirstAux [] (ms.map (fun r => (r.testName, r.file)))
      let rows := keys.map (fun k =>
        { testName := k.1
          file := k.2
          occurrences :=
            (ms.filter (fun r => r.testName == k.1 && r.file == k.2)).length })
      (st1, (sortBy (fun a b => decide (b.occurrences ≤ a.occurrences)) rows).take 10)

/-- Store with one extra result row appended to the table, used to state that
null-hash rows never influence findSimilarFailures. -/
def withExtraRow (st : IndexState) (db : DbState) (row : ResultRow) : IndexState :=
  let db2 : DbState := { db with results := db.results ++ [row] }
  { st with db := some db2 }

/-- Concrete database used by the retention witness: one run 45 days old
owning one result row, one run 10 days old (the clock sits at day 60, so the
run at day 15 is 45 days old). -/
def c6Db : DbState :=
  { runs := [⟨1, 86400 * 15, none, none, 1, 0, 1, 0, ""⟩,
             ⟨2, 86400 * 50, none, none, 1, 1, 0, 0, ""⟩]
    results := [⟨1, 1, "tOld", "o.js", "fail", 0, none, none, none, none⟩]
    nextRunId := 3
    nextResultId := 2 }

/-- Concrete store around `c6Db` with retention 30. -/
def c6St : IndexState :=
  { enabled := true, db := some c6Db, retentionDays := 30, trackGit := false
    initialized := true }

/-- Concrete database used by the flakiness witness: one run at day 9 owning
a pass row and a fail row of the same test. -/
def c4Db : DbState :=
  { runs := [⟨1, 86400 * 9, none, none, 2, 1, 1, 0, ""⟩]
    results := [⟨1, 1, "tA", "a.js", "fail", 0, none, none, none, none⟩,
                ⟨2, 1, "tA", "a.js", "pass", 0, none, none, none, none⟩]
    nextRunId := 2
    nextResultId := 3 }

/-- Concrete store around `c4Db`. -/
def c4St : IndexState :=
  { enabled := true, db := some c4Db, retentionDays := 30, trackGit := false
    initialized := true }

/-- Database for the C4 window counterexample: a single run dated on the
cutoff UTC date but strictly older than the window, owning one pass row. -/
def c4bDb : DbState :=
  { runs := [⟨1, 86400 * 3 + 3600, none, none, 1, 1, 0, 0, ""⟩]
    results := [⟨1, 1, "tA", "a.js", "pass", 0, none, none, none, none⟩]
    nextRunId := 2
    nextResultId := 2 }

/-- Concrete store around `c4bDb`. -/
def c4bSt : IndexState :=
  { enabled := true, db := some c4bDb, retentionDays := 30, trackGit := false
    initialized := true }

/-- Database for the C6 retention counterexample: a single run dated on the
cutoff UTC date but strictly older than the retention, owning one result
row. -/
def c6bDb : DbState :=
  { runs := [⟨1, 86400 * 30 + 3600, none, none, 1, 0, 1, 0, ""⟩]
    results := [⟨1, 1, "tOld", "o.js", "fail", 0, none, none, none, none⟩]
    nextRunId := 2
    nextResultId := 2 }

/-- Concrete store around `c6bDb` with retention 30. -/
def c6bSt : IndexState :=
  { enabled := true, db := some c6bDb, retentionDays := 30, trackGit := false
    initialized := true }

/-- Concrete database for the similar-failures witness: two failing rows in
different tests sharing one errorHash. -/
def c8Db : DbState :=
  { runs := [⟨1, 0, none, none, 2, 0, 2, 0, ""⟩]
    results := [⟨1, 1, "tA", "a.js", "fail", 0, none, none, some "HX", none⟩,
                ⟨2, 1, "tB", "b.js", "fail", 0, none, none, some "HX", none⟩]
    nextRunId := 2
    nextResultId := 3 }

/-- Concrete store around `c8Db`. -/
def c8St : IndexState :=
  { enabled := true, db := some c8Db, retentionDays := 30, trackGit := false
    initialized := true }

/- Theorems about the Root Cause Pattern Engine. -/

theorem isNone_eq_not_isSome (o : Option α) : o.isNone = !o.isSome := by
  cases o <;> rfl

theorem insertBy_perm (le : α → α → Bool) (a : α) (l : List α) :
    (insertBy le a l).Perm (a :: l) := by
  induction l with
  | nil => exact List.Perm.refl _
  | cons b t ih =>
    by_cases h : le a b = true
    · simp [insertBy, h]
    · simp only [insertBy, h, if_neg, Bool.not_eq_true]
      exact ((ih.cons b).trans (List.Perm.swap a b t)).trans (List.Perm.refl _)

theorem sortBy_perm (le : α → α → Bool) (l : List α) :
    (sortBy le l).Perm l := by
  induction l with
  | nil => exact List.Perm.refl _
  | cons a t ih => exact (insertBy_perm le a (sortBy le t)).trans (ih.cons a)

theorem insertBy_pairwise (le : α → α → Bool)
    (htot : ∀ a b, le a b || le b a)
    (htrans : ∀ a b c, le a b = true → le b c = true → le a c = true)
    (a : α) (l : List α) (h : l.Pairwise (fun x y => le x y = true)) :
    (insertBy le a l).Pairwise (fun x y => le x y = true) := by
  induction l with
  | nil => simp [insertBy]
  | cons b t ih =>
    rcases List.pairwise_cons.mp h with ⟨hb, ht⟩
    by_cases hab : le a b = true
    · simp only [insertBy, hab, if_pos]
      refine List.pairwise_cons.mpr ⟨?_, h⟩
      intro y hy
      obtain h2 | h2 := List.mem_cons.mp hy
      · rw [h2]; exact hab
      · exact htrans a b y hab (hb y h2)
    · simp only [insertBy, hab, if_neg, Bool.not_eq_true]
      refine List.pairwise_cons.mpr ⟨?_, ih ht⟩
      intro y hy
      have hperm := insertBy_perm le a t
      have hy2 : y ∈ a :: t := hperm.mem_iff.mp hy
      obtain h2 | h2 := List.mem_cons.mp hy2
      · rw [h2]
        have h3 := htot a b
        obtain h4 | h4 := Bool.or_eq_true_iff.mp h3
        · exact absurd h4 hab
        · exact h4
      · exact hb y h2

theorem sortBy_pairwise (le : α → α → Bool)
    (htot : ∀ a b, le a b || le b a)
    (htrans : ∀ a b c, le a b = true → le b c = true → le a c = true)
    (l : List α) :
    (sortBy le l).Pairwise (fun x y => le x y = true) := by
  induction l with
  | nil => simp [sortBy]
  | cons a t ih => exact insertBy_pairwise le htot htrans a (sortBy le t) ih

theorem hits_map_fst (m : Matcher) (l : List (Nat × Failure)) :
    (l.filterMap (fun f => (matchOf m f.2).map (fun caps => (f, caps)))).map
        (fun x => x.1)
      = l.filter (fun f => (matchOf m f.2).isSome) := by
  induction l with
  | nil => rfl
  | cons a tl ih =>
    cases h : matchOf m a.2 <;>
      simp [List.filterMap_cons, List.filter_cons, h, ih]

theorem groupLoop_perm (mgs : Nat) (ms : List Matcher) (l : List (Nat × Failure)) :
    (((groupLoop mgs ms l).1.map (fun g => g.failures)).flatten
        ++ (groupLoop mgs ms l).2).Perm l := by
  induction ms generalizing l with
  | nil => simp [groupLoop]
  | cons m ms ih =>
    by_cases h : mgs ≤
        (l.filterMap (fun f => (matchOf m f.2).map (fun caps => (f, caps)))).length
    · simp only [groupLoop, h, if_pos]
      refine List.Perm.trans ?_ (List.filter_append_perm
        (fun f => (matchOf m f.2).isSome) l)
      simp only [List.map_cons, List.flatten_cons, List.append_assoc, hits_map_fst]
      refine List.Perm.append_left _ ?_
      have := ih (l.filter (fun f => (matchOf m f.2).isNone))
      refine List.Perm.trans this ?_
      have hfun : ∀ f : Nat × Failure,
          (matchOf m f.2).isNone = !(matchOf m f.2).isSome := by
        intro f; exact isNone_eq_not_isSome _
      simp only [hfun]
      exact List.Perm.refl _
    · simpa only [groupLoop, h, if_neg, not_false_iff] using ih l

theorem groupByPattern_flatten_perm (mgs : Nat) (l : List (Nat × Failure)) :
    (((groupByPattern mgs l).map (fun g => g.failures)).flatten).Perm l := by
  have h := groupLoop_perm mgs getPatternMatchers l
  unfold groupByPattern
  by_cases hz : (groupLoop mgs getPatternMatchers l).2.length = 0
  · have hnil : (groupLoop mgs getPatternMatchers l).2 = [] :=
      List.length_eq_zero.mp hz
    rw [hnil, List.append_nil] at h
    simpa [hz] using h
  · simpa [hz, catchAllGroup] using h

theorem enum_nodup (l : List α) : l.enum.Nodup := by
  have h : (l.enum.map Prod.fst).Nodup := by
    rw [List.enum_map_fst]; exact List.nodup_range _
  exact h.of_map _

theorem snd_mem_of_mem_enum {l : List α} {p : Nat × α} (h : p ∈ l.enum) :
    p.2 ∈ l := by
  obtain ⟨i, x⟩ := p
  obtain ⟨hlt, hx⟩ := List.mem_enum h
  show x ∈ l
  rw [hx]
  exact List.getElem_mem hlt

/-- C3: for every batch, the groups returned by `analyze` partition the input:
the groups' failure sets are pairwise disjoint, so each failure is claimed by
at most one named group and at most the catch-all; the `count` fields of the
returned root causes sum to the number of input failures; and the empty batch
yields the empty output with no catch-all group. -/
theorem analyze_partition (mgs : Nat) (failures : List Failure) :
    ((analyzeFailures mgs failures).map (fun g => g.count)).sum = failures.length
    ∧ List.Pairwise (fun g₁ g₂ => g₁.failures.Disjoint g₂.failures)
        (groupByPattern mgs failures.enum)
    ∧ (failures = [] → analyzeFailures mgs failures = []) := by
  have hperm := groupByPattern_flatten_perm mgs failures.enum
  refine ⟨?_, ?_, ?_⟩
  · unfold analyzeFailures analyze
    by_cases hz : failures.enum.length = 0
    · have : failures.length = 0 := by simpa using hz
      simp [hz, this]
    · simp only [hz, if_neg, not_false_iff]
      have hsort := sortBy_perm
        (fun (a b : RootCause) => decide (b.confidence ≤ a.confidence))
        ((groupByPattern mgs failures.enum).map (fun g =>
          ({ pattern := g.pattern
             confidence := g.confidence
             affectedTests := g.failures.map (fun f => f.2.t)
             count := g.failures.length
             suspectedFiles := findCommonSourceFiles g.failures
             suggestion := g.suggestion
             evidence := g.evidence } : RootCause)))
      have hs := (hsort.map (fun g : RootCause => g.count)).sum_eq
      rw [hs, List.map_map]
      have hlen : (((groupByPattern mgs failures.enum).map
          (fun g => g.failures)).flatten).length = failures.enum.length :=
        hperm.length_eq
      rw [List.length_flatten, List.map_map] at hlen
      have : failures.enum.length = failures.length := List.enum_length
      rw [this] at hlen
      rw [← hlen]
      rfl
  · have hnd : (((groupByPattern mgs failures.enum).map
        (fun g => g.failures)).flatten).Nodup :=
      hperm.nodup_iff.mpr (enum_nodup failures)
    have hpw := (List.nodup_flatten.mp hnd).2
    exact (List.pairwise_map.mp hpw)
  · intro h
    subst h
    rfl

theorem filterMap_hits_nil (m : Matcher) (l : List (Nat × Failure))
    (h : ∀ p ∈ l, matchOf m p.2 = none) :
    l.filterMap (fun f => (matchOf m f.2).map (fun caps => (f, caps))) = [] := by
  induction l with
  | nil => rfl
  | cons a tl ih =>
    have ha := h a (List.mem_cons_self a tl)
    simp only [List.filterMap_cons, ha, Option.map_none']
    exact ih (fun p hp => h p (List.mem_cons_of_mem a hp))

theorem hits_length_all_some (m : Matcher) (l : List (Nat × Failure))
    (h : ∀ p ∈ l, (matchOf m p.2).isSome = true) :
    (l.filterMap (fun f => (matchOf m f.2).map (fun caps => (f, caps)))).length
      = l.length := by
  induction l with
  | nil => rfl
  | cons a tl ih =>
    have ha := h a (List.mem_cons_self a tl)
    obtain ⟨caps, hc⟩ := Option.isSome_iff_exists.mp ha
    simp only [List.filterMap_cons, hc, Option.map_some', List.length_cons]
    rw [ih (fun p hp => h p (List.mem_cons_of_mem a hp))]

theorem filter_isNone_nil (m : Matcher) (l : List (Nat × Failure))
    (h : ∀ p ∈ l, (matchOf m p.2).isSome = true) :
    l.filter (fun f => (matchOf m f.2).isNone) = [] := by
  induction l with
  | nil => rfl
  | cons a tl ih =>
    have ha := h a (List.mem_cons_self a tl)
    have hn : (matchOf m a.2).isNone = false := by
      rw [isNone_eq_not_isSome, ha]; rfl
    simp only [List.filter_cons, hn, if_neg, Bool.false_eq_true, not_false_iff]
    exact ih (fun p hp => h p (List.mem_cons_of_mem a hp))

theorem groupLoop_nil_input (mgs : Nat) (hm : 0 < mgs) (ms : List Matcher) :
    groupLoop mgs ms [] = ([], []) := by
  induction ms with
  | nil => rfl
  | cons m ms ih =>
    have : ¬ mgs ≤ ([] : List ((Nat × Failure) × List String)).length := by
      simpa using Nat.not_le_of_lt hm
    simp only [groupLoop, List.filterMap_nil] at *
    rw [if_neg this]
    exact ih

theorem groupLoop_skip_all_none (mgs : Nat) (hm : 0 < mgs) (m : Matcher)
    (ms : List Matcher) (l : List (Nat × Failure))
    (h : ∀ p ∈ l, matchOf m p.2 = none) :
    groupLoop mgs (m :: ms) l = groupLoop mgs ms l := by
  have h0 := filterMap_hits_nil m l h
  have hno : ¬ mgs ≤
      (l.filterMap (fun f => (matchOf m f.2).map (fun caps => (f, caps)))).length := by
    rw [h0]; simpa using Nat.not_le_of_lt hm
  simp only [groupLoop]
  rw [if_neg hno]

theorem groupLoop_claim_all (mgs : Nat) (m : Matcher) (ms : List Matcher)
    (l : List (Nat × Failure)) (hm : 0 < mgs) (hsize : mgs ≤ l.length)
    (h : ∀ p ∈ l, (matchOf m p.2).isSome = true) :
    (groupLoop mgs (m :: ms) l).1.map (fun g => (g.confidence, g.failures.length))
        = [(m.confidence, l.length)]
    ∧ (groupLoop mgs (m :: ms) l).2 = [] := by
  have hlen := hits_length_all_some m l h
  have hyes : mgs ≤
      (l.filterMap (fun f => (matchOf m f.2).map (fun caps => (f, caps)))).length := by
    rw [hlen]; exact hsize
  have hrest := filter_isNone_nil m l h
  constructor
  · simp only [groupLoop]
    rw [if_pos hyes, hrest, groupLoop_nil_input mgs hm ms]
    simp only [List.map_cons, List.map_nil, List.length_map]
    rw [hlen]
  · simp only [groupLoop]
    rw [if_pos hyes, hrest, groupLoop_nil_input mgs hm ms]

theorem map_eq_singleton {f : α → β} {l : List α} {b : β}
    (h : l.map f = [b]) : ∃ a, l = [a] ∧ f a = b := by
  cases l with
  | nil => simp at h
  | cons x t =>
    cases t with
    | nil =>
      refine ⟨x, rfl, ?_⟩
      simpa using h
    | cons y t2 => simp at h

/-- C1 (amended): the grouping iterates matchers in the source catalog order
(undefined_property_access, null_property_access, type_mismatch, array_length,
assertion_error, timeout, not_a_function, undefined_reference — the order of
the getPatternMatchers array, which the repository documentation also lists),
so a batch of at least minGroupSize failures whose messages match both the
timeout rule and the generic-assertion rule, and none of the patterns placed
before assertion_error in that order, is grouped under the generic-assertion
matcher with confidence 0.60 (60 on the percent scale used here), not under
timeout with confidence 0.85. -/
theorem analyze_catalog_order (mgs : Nat) (failures : List Failure)
    (hmgs : 0 < mgs) (hsize : mgs ≤ failures.length)
    (hmatch : ∀ f ∈ failures, ∃ e, f.e = some e ∧ e.msg ≠ "" ∧
      (matchAssertion e.msg).isSome = true ∧ (matchTimeout e.msg).isSome = true ∧
      matchUndefProp e.msg = none ∧ matchNullProp e.msg = none ∧
      matchTypeMismatch e.msg = none ∧ matchArrayLength e.msg = none) :
    getPatternMatchers.map (fun m => m.name)
      = ["undefined_property_access", "null_property_access", "type_mismatch",
         "array_length", "assertion_error", "timeout", "not_a_function",
         "undefined_reference"]
    ∧ (analyzeFailures mgs failures).map (fun g => (g.confidence, g.count))
      = [(60, failures.length)] := by
  refine ⟨rfl, ?_⟩
  have hm' : ∀ p ∈ failures.enum, ∃ e, p.2.e = some e ∧ e.msg ≠ "" ∧
      (matchAssertion e.msg).isSome = true ∧ (matchTimeout e.msg).isSome = true ∧
      matchUndefProp e.msg = none ∧ matchNullProp e.msg = none ∧
      matchTypeMismatch e.msg = none ∧ matchArrayLength e.msg = none :=
    fun p hp => hmatch p.2 (snd_mem_of_mem_enum hp)
  have hpos : 0 < failures.length := Nat.lt_of_lt_of_le hmgs hsize
  have hnz : ¬ failures.enum.length = 0 := by
    rw [List.enum_length]
    exact Nat.pos_iff_ne_zero.mp hpos
  unfold analyzeFailures analyze
  rw [if_neg hnz]
  have hgl : (groupLoop mgs getPatternMatchers failures.enum).1.map
        (fun g => (g.confidence, g.failures.length)) = [(60, failures.length)]
      ∧ (groupLoop mgs getPatternMatchers failures.enum).2 = [] := by
    simp only [getPatternMatchers]
    rw [groupLoop_skip_all_none mgs hmgs _ _ _ (fun p hp => by
      obtain ⟨e, he, hmsg, _, _, hU, _, _, _⟩ := hm' p hp
      simp [matchOf, he, hmsg, hU, undefinedPropertyAccessMatcher])]
    rw [groupLoop_skip_all_none mgs hmgs _ _ _ (fun p hp => by
      obtain ⟨e, he, hmsg, _, _, _, hN, _, _⟩ := hm' p hp
      simp [matchOf, he, hmsg, hN, nullPropertyAccessMatcher])]
    rw [groupLoop_skip_all_none mgs hmgs _ _ _ (fun p hp => by
      obtain ⟨e, he, hmsg, _, _, _, _, hT, _⟩ := hm' p hp
      simp [matchOf, he, hmsg, hT, typeMismatchMatcher])]
    rw [groupLoop_skip_all_none mgs hmgs _ _ _ (fun p hp => by
      obtain ⟨e, he, hmsg, _, _, _, _, _, hL⟩ := hm' p hp
      simp [matchOf, he, hmsg, hL, arrayLengthMatcher])]
    have hclaim := groupLoop_claim_all mgs assertionErrorMatcher
      [timeoutMatcher, notAFunctionMatcher, undefinedReferenceMatcher]
      failures.enum hmgs
      (by rw [List.enum_length]; exact hsize)
      (fun p hp => by
        obtain ⟨e, he, hmsg, hA, _, _, _, _, _⟩ := hm' p hp
        simp only [matchOf, he, if_neg hmsg]
        simpa [assertionErrorMatcher] using hA)
    rw [List.enum_length] at hclaim
    simpa [assertionErrorMatcher] using hclaim
  obtain ⟨g, hg1, hg2⟩ := map_eq_singleton hgl.1
  have hcc : g.confidence = 60 := congrArg Prod.fst hg2
  have hcl : g.failures.length = failures.length := congrArg Prod.snd hg2
  have hgbp : groupByPattern mgs failures.enum = [g] := by
    simp only [groupByPattern]
    rw [hg1, hgl.2]
    simp
  rw [hgbp]
  simp [sortBy, insertBy, hcc, hcl]

/-- Witness for `analyze_catalog_order`: a concrete two-failure batch whose
messages match both the timeout and the generic-assertion rule is grouped
under generic-assertion with confidence 0.60. -/
theorem analyze_catalog_order_witness :
    getPatternMatchers.map (fun m => m.name)
      = ["undefined_property_access", "null_property_access", "type_mismatch",
         "array_length", "assertion_error", "timeout", "not_a_function",
         "undefined_reference"]
    ∧ (analyzeFailures 2
        [{ t := "t1", f := "a.js", e := some ⟨"AssertionError", "AssertionError: timed out"⟩,
           d := 0, stk := none },
         { t := "t2", f := "b.js", e := some ⟨"AssertionError", "AssertionError: timed out"⟩,
           d := 0, stk := none }]).map (fun g => (g.confidence, g.count))
      = [(60, 2)] :=
  analyze_catalog_order 2 _ (by decide) (by decide) (by
    intro f hf
    have hf2 : f = (⟨"t1", "a.js", some ⟨"AssertionError", "AssertionError: timed out"⟩,
          0, none⟩ : Failure)
        ∨ f = (⟨"t2", "b.js", some ⟨"AssertionError", "AssertionError: timed out"⟩,
          0, none⟩ : Failure) := by
      simpa using hf
    refine ⟨⟨"AssertionError", "AssertionError: timed out"⟩, ?_, by decide, by decide,
      by decide, by decide, by decide, by decide, by decide⟩
    obtain h1 | h1 := hf2 <;> rw [h1])

/-- C1 (counterexample): two failures whose messages match both the timeout
rule and the generic-assertion rule are grouped under the generic-assertion
matcher with confidence 0.60, not under timeout with confidence 0.85, because
assertion_error precedes timeout in the source catalog. -/
theorem analyze_order_counterexample :
    (matchTimeout "AssertionError: timed out").isSome = true
    ∧ (matchAssertion "AssertionError: timed out").isSome = true
    ∧ (analyzeFailures 2
        [{ t := "t1", f := "a.js", e := some ⟨"AssertionError", "AssertionError: timed out"⟩,
           d := 0, stk := none },
         { t := "t2", f := "b.js", e := some ⟨"AssertionError", "AssertionError: timed out"⟩,
           d := 0, stk := none }]).map (fun g => (g.pattern, g.confidence))
      = [("General assertion failures", 60)] := by
  refine ⟨by decide, by decide, ?_⟩
  decide

/- Theorems about the Persistent History Store. -/

theorem initStore_initialized (o : Bool) (n : Int) (st : IndexState) :
    (initStore o n st).initialized = true := by
  unfold initStore
  by_cases h1 : st.initialized
  · rw [if_pos h1]; exact h1
  · rw [if_neg h1]
    by_cases h2 : st.enabled
    · simp only [h2, Bool.not_true, Bool.false_eq_true, if_false]
      by_cases h3 : o
      · simp only [h3, Bool.not_true, Bool.false_eq_true, if_false]
      · simp only [h3, Bool.not_false, if_true]
    · simp only [Bool.not_eq_true] at h2
      simp only [h2, Bool.not_false, if_true]

theorem initStore_of_initialized (o : Bool) (n : Int) (st : IndexState)
    (h : st.initialized = true) : initStore o n st = st := by
  unfold initStore
  rw [if_pos h]

theorem initStore_idem (o2 : Bool) (n2 : Int) (o : Bool) (n : Int)
    (st : IndexState) : initStore o2 n2 (initStore o n st) = initStore o n st :=
  initStore_of_initialized o2 n2 _ (initStore_initialized o n st)

/-- C7: when the store is disabled — explicitly, or after the durable medium
failed to open — every operation is a no-op at the level of its return value
and of the stored tables: both writes return a not-recorded signal (null run
id, unchanged state), every read returns empty, and a getHistory following a
recordRun on the disabled store returns the empty sequence.  (No operation
can throw: every embedded operation is a total function.) -/
theorem disabled_store_noop (openOk openOk2 : Bool) (now now2 : Int)
    (git : Option (String × String)) (insertFails : Failure → Bool)
    (st : IndexState) (summary : RunSummary) (meta : MetaObj)
    (runId : Option Nat) (tests : List Failure) (t : String) (lim w : Nat)
    (h : String)
    (hd : (initStore openOk now st).enabled = false
        ∨ (initStore openOk now st).db = none) :
    recordTestRun openOk now git st summary meta = (initStore openOk now st, none)
    ∧ recordTestResults openOk now insertFails st runId tests = initStore openOk now st
    ∧ getTestHistory openOk now st t lim = (initStore openOk now st, [])
    ∧ getFlakiness openOk now st t w = (initStore openOk now st, none)
    ∧ findSimilarFailures openOk now st h = (initStore openOk now st, [])
    ∧ (getTestHistory openOk2 now2
        (recordTestRun openOk now git st summary meta).1 t lim).2 = [] := by
  have hrec : recordTestRun openOk now git st summary meta
      = (initStore openOk now st, none) := by
    unfold recordTestRun
    rcases h2 : (initStore openOk now st).db with _ | db
    · simp [h2]
    · rcases hd with he | hdb
      · simp [h2, he]
      · rw [h2] at hdb; cases hdb
  refine ⟨hrec, ?_, ?_, ?_, ?_, ?_⟩
  · unfold recordTestResults
    rcases h2 : (initStore openOk now st).db with _ | db
    · cases runId <;> simp [h2]
    · rcases hd with he | hdb
      · cases runId <;> simp [h2, he]
      · rw [h2] at hdb; cases hdb
  · unfold getTestHistory
    rcases h2 : (initStore openOk now st).db with _ | db
    · simp [h2]
    · rcases hd with he | hdb
      · simp [h2, he]
      · rw [h2] at hdb; cases hdb
  · unfold getFlakiness
    rcases h2 : (initStore openOk now st).db with _ | db
    · simp [h2]
    · rcases hd with he | hdb
      · simp [h2, he]
      · rw [h2] at hdb; cases hdb
  · unfold findSimilarFailures
    rcases h2 : (initStore openOk now st).db with _ | db
    · simp [h2]
    · rcases hd with he | hdb
      · simp [h2, he]
      · rw [h2] at hdb; cases hdb
  · rw [hrec]
    unfold getTestHistory
    rw [initStore_idem]
    rcases h2 : (initStore openOk now st).db with _ | db
    · simp [h2]
    · rcases hd with he | hdb
      · simp [h2, he]
      · rw [h2] at hdb; cases hdb

/-- Witness for `disabled_store_noop`: an explicitly disabled store. -/
theorem disabled_store_noop_witness :
    recordTestRun true 5 none (mkIndex false 30 false) ⟨9, 1, 1, 0⟩ ⟨2, "j"⟩
        = (initStore true 5 (mkIndex false 30 false), none)
    ∧ recordTestResults true 5 (fun _ => false) (mkIndex false 30 false) (some 1) []
        = initStore true 5 (mkIndex false 30 false)
    ∧ getTestHistory true 5 (mkIndex false 30 false) "x" 10
        = (initStore true 5 (mkIndex false 30 false), [])
    ∧ getFlakiness true 5 (mkIndex false 30 false) "x" 7
        = (initStore true 5 (mkIndex false 30 false), none)
    ∧ findSimilarFailures true 5 (mkIndex false 30 false) "h"
        = (initStore true 5 (mkIndex false 30 false), [])
    ∧ (getTestHistory true 6
        (recordTestRun true 5 none (mkIndex false 30 false) ⟨9, 1, 1, 0⟩ ⟨2, "j"⟩).1
        "x" 10).2 = [] := by
  exact disabled_store_noop true true 5 6 none (fun _ => false) (mkIndex false 30 false)
    ⟨9, 1, 1, 0⟩ ⟨2, "j"⟩ (some 1) [] "x" 10 7 "h" (by decide)

/-- C9: the persisted run's timestamp is the store's wall-clock time at
insertion, never a timestamp carried in the summary: recordTestRun at clock
`now` is entirely independent of the summary's timestamp field, and every run
row it adds carries timestamp `now` — so the getFlakiness window and the
cleanup retention cutoff, both computed from run timestamps, are evaluated
against store-assigned insertion times. -/
theorem recordTestRun_timestamp (openOk : Bool) (now : Int)
    (git : Option (String × String)) (st : IndexState)
    (s1 s2 : RunSummary) (meta : MetaObj)
    (ht : s1.tot = s2.tot) (hp : s1.pas = s2.pas) (hf : s1.fai = s2.fai) :
    recordTestRun openOk now git st s1 meta = recordTestRun openOk now git st s2 meta
    ∧ (∀ db2, (recordTestRun openOk now git st s1 meta).1.db = some db2 →
        ∀ r ∈ db2.runs,
          (match (initStore openOk now st).db with
           | some db0 => r ∈ db0.runs
           | none => False)
          ∨ r.timestamp = now) := by
  constructor
  · unfold recordTestRun
    rw [ht, hp, hf]
  · intro db2 hdb2 r hr
    unfold recordTestRun at hdb2
    rcases h2 : (initStore openOk now st).db with _ | db
    · simp only [h2] at hdb2
      exact Option.noConfusion hdb2
    · by_cases he : (initStore openOk now st).enabled = true
      · simp only [h2, he, Bool.not_true, Bool.false_eq_true, if_false,
          Option.some.injEq] at hdb2
        rw [← hdb2] at hr
        simp only [List.mem_append, List.mem_singleton] at hr
        rcases hr with hr | hr
        · exact Or.inl hr
        · right; rw [hr]
      · simp only [Bool.not_eq_true] at he
        simp only [h2, he, Bool.not_false, if_true, Option.some.injEq] at hdb2
        rw [← hdb2] at hr
        exact Or.inl hr

/-- Witness for `recordTestRun_timestamp`: two summaries that differ only in
their timestamp field produce identical store states, and the inserted run is
stamped with the clock value 42. -/
theorem recordTestRun_timestamp_witness :
    recordTestRun true 42 none (mkIndex true 30 false) ⟨111, 3, 2, 1⟩ ⟨5, "j"⟩
      = recordTestRun true 42 none (mkIndex true 30 false) ⟨999, 3, 2, 1⟩ ⟨5, "j"⟩
    ∧ (∀ db2, (recordTestRun true 42 none (mkIndex true 30 false)
          ⟨111, 3, 2, 1⟩ ⟨5, "j"⟩).1.db = some db2 →
        ∀ r ∈ db2.runs,
          (match (initStore true 42 (mkIndex true 30 false)).db with
           | some db0 => r ∈ db0.runs
           | none => False)
          ∨ r.timestamp = 42) :=
  recordTestRun_timestamp true 42 none (mkIndex true 30 false)
    ⟨111, 3, 2, 1⟩ ⟨999, 3, 2, 1⟩ ⟨5, "j"⟩ rfl rfl rfl

theorem runInserts_ok (insertFails : Failure → Bool) (rid : Nat)
    (tests : List Failure) (db : DbState)
    (h : ∀ t ∈ tests, insertFails t = false) :
    runInserts insertFails rid tests db = Except.ok
      { db with results := db.results ++ insertedRows rid db.nextResultId tests
                nextResultId := db.nextResultId + tests.length } := by
  induction tests generalizing db with
  | nil => simp [runInserts, insertedRows]
  | cons t rest ih =>
    have ht := h t (List.mem_cons_self t rest)
    simp only [runInserts, ht, Bool.false_eq_true, if_false]
    rw [ih _ (fun x hx => h x (List.mem_cons_of_mem t hx))]
    simp only [insertedRows, List.length_cons, List.append_assoc,
      List.singleton_append]
    have harith : db.nextResultId + 1 + rest.length
        = db.nextResultId + (rest.length + 1) := by omega
    rw [harith]

theorem runInserts_error (insertFails : Failure → Bool) (rid : Nat)
    (tests : List Failure) (db : DbState)
    (h : ∃ t ∈ tests, insertFails t = true) :
    runInserts insertFails rid tests db = Except.error () := by
  induction tests generalizing db with
  | nil => obtain ⟨t, ht, _⟩ := h; cases ht
  | cons t rest ih =>
    by_cases hf : insertFails t = true
    · simp [runInserts, hf]
    · simp only [runInserts, hf, if_neg, Bool.not_eq_true]
      apply ih
      obtain ⟨x, hx, hfx⟩ := h
      rcases List.mem_cons.mp hx with h2 | h2
      · rw [h2] at hfx; exact absurd hfx hf
      · exact ⟨x, h2, hfx⟩

/-- C5: recordTestResults is atomic: for every initialized store, run id and
entry batch the call either appends exactly the whole batch (when every
insert succeeds) or leaves the store state completely unchanged, and whenever
any insert of the batch fails the state is unchanged — previously committed
rows are never touched. -/
theorem recordTestResults_atomic (openOk : Bool) (now : Int)
    (insertFails : Failure → Bool) (st : IndexState) (runId : Option Nat)
    (tests : List Failure) (hinit : st.initialized = true) :
    (recordTestResults openOk now insertFails st runId tests = st
      ∨ ∃ db rid, st.db = some db ∧ runId = some rid ∧
          recordTestResults openOk now insertFails st runId tests
            = appendedState st db rid tests
          ∧ ∀ t ∈ tests, insertFails t = false)
    ∧ ((∃ t ∈ tests, insertFails t = true) →
        recordTestResults openOk now insertFails st runId tests = st) := by
  have hi := initStore_of_initialized openOk now st hinit
  have hmain : recordTestResults openOk now insertFails st runId tests
      = st
    ∨ ∃ db rid, st.db = some db ∧ runId = some rid ∧
        recordTestResults openOk now insertFails st runId tests
          = appendedState st db rid tests
        ∧ ∀ t ∈ tests, insertFails t = false := by
    unfold recordTestResults
    rw [hi]
    rcases h2 : st.db with _ | db
    · left; cases runId <;> simp [h2]
    · rcases runId with _ | rid
      · left; simp [h2]
      · simp only [h2]
        by_cases he : st.enabled
        · rw [if_neg (by simp [he])]
          by_cases hall : ∀ t ∈ tests, insertFails t = false
          · right
            refine ⟨db, rid, rfl, rfl, ?_, hall⟩
            unfold transactionIns appendedState
            rw [runInserts_ok insertFails rid tests db hall]
          · left
            have hex : ∃ t ∈ tests, insertFails t = true := by
              push_neg at hall
              obtain ⟨t, ht, hft⟩ := hall
              exact ⟨t, ht, by simpa using hft⟩
            unfold transactionIns
            rw [runInserts_error insertFails rid tests db hex]
            rcases st with ⟨en, sdb, ret, tg, ini⟩
            simp only at h2 he ⊢
            rw [h2]
        · left
          rw [if_pos (by simp [Bool.not_eq_true] at he; simp [he])]
  refine ⟨hmain, ?_⟩
  intro hex
  rcases hmain with hm | ⟨db, rid, hdb, hrid, heq, hall⟩
  · exact hm
  · obtain ⟨t, ht, hft⟩ := hex
    rw [hall t ht] at hft
    cases hft

/-- Witness for `recordTestResults_atomic`: a concrete initialized store with
an open database, a two-entry batch and a fail-free insert oracle. -/
theorem recordTestResults_atomic_witness :
    (recordTestResults true 7 (fun _ => false)
        (initStore true 7 (mkIndex true 30 false)) (some 1)
        [⟨"tA", "a.js", none, 1, none⟩]
        = initStore true 7 (mkIndex true 30 false)
      ∨ ∃ db rid, (initStore true 7 (mkIndex true 30 false)).db = some db
          ∧ (some 1 : Option Nat) = some rid ∧
          recordTestResults true 7 (fun _ => false)
              (initStore true 7 (mkIndex true 30 false)) (some 1)
              [⟨"tA", "a.js", none, 1, none⟩]
            = appendedState (initStore true 7 (mkIndex true 30 false)) db rid
                [⟨"tA", "a.js", none, 1, none⟩]
          ∧ ∀ t ∈ [(⟨"tA", "a.js", none, 1, none⟩ : Failure)],
              (fun (_ : Failure) => false) t = false)
    ∧ ((∃ t ∈ [(⟨"tA", "a.js", none, 1, none⟩ : Failure)],
          (fun (_ : Failure) => false) t = true) →
        recordTestResults true 7 (fun _ => false)
            (initStore true 7 (mkIndex true 30 false)) (some 1)
            [⟨"tA", "a.js", none, 1, none⟩]
          = initStore true 7 (mkIndex true 30 false)) :=
  recordTestResults_atomic true 7 (fun _ => false)
    (initStore true 7 (mkIndex true 30 false)) (some 1)
    [⟨"tA", "a.js", none, 1, none⟩]
    (initStore_initialized true 7 (mkIndex true 30 false))

/-- C6 (amended): for every positive retention setting, cleanup on an
enabled store with an open database removes exactly the runs whose UTC date
is strictly before the UTC date of the cutoff datetime(now, -N days) — the
DELETEs compare the stored ISO text with the space-separated datetime
text, which is date-granular at the boundary — together with exactly the
result rows owned by them: a run survives iff its date is not before the
cutoff date, a result row survives iff no run of the table owning it is
that old (children are filtered by the subquery over the still-complete
runs table, i.e. deleted before their parents), no surviving result row
references a deleted run, and the counters and the rest of the store state
are unchanged.  In particular runs dated on the cutoff UTC date survive
even when strictly older than N days. -/
theorem cleanup_retention (now : Int) (st : IndexState) (db : DbState)
    (hdb : st.db = some db) (hen : st.enabled = true)
    (hret : 0 < st.retentionDays) :
    ∃ db2, cleanupIdx now st = { st with db := some db2 }
      ∧ db2.runs = db.runs.filter
          (fun r => !(isoBeforeDt r.timestamp (cutoffOf st.retentionDays now)))
      ∧ (∀ r ∈ db.runs, (r ∈ db2.runs ↔
          ¬ dayOf r.timestamp < dayOf (cutoffOf st.retentionDays now)))
      ∧ (∀ res ∈ db.results,
          (res ∈ db2.results ↔ ¬ ∃ r, r ∈ db.runs ∧ r.id = res.runId ∧
            dayOf r.timestamp < dayOf (cutoffOf st.retentionDays now)))
      ∧ (∀ res ∈ db2.results, ∀ r ∈ db.runs, r.id = res.runId →
          ¬ dayOf r.timestamp < dayOf (cutoffOf st.retentionDays now))
      ∧ db2.nextRunId = db.nextRunId ∧ db2.nextResultId = db.nextResultId := by
  have hretne : ¬ st.retentionDays = 0 := Nat.pos_iff_ne_zero.mp hret
  have hstep : cleanupIdx now st
      = { st with db := some (cleanupDb st.retentionDays now db) } := by
    unfold cleanupIdx
    rw [hdb]
    simp only [hen, Bool.not_true, Bool.false_eq_true, if_false]
    rw [if_neg hretne]
  have hresmem : ∀ res, res ∈ (cleanupDb st.retentionDays now db).results ↔
      (res ∈ db.results ∧ ¬ ∃ r, r ∈ db.runs ∧ r.id = res.runId ∧
        dayOf r.timestamp < dayOf (cutoffOf st.retentionDays now)) := by
    intro res
    simp only [cleanupDb, List.mem_filter]
    constructor
    · rintro ⟨h1, h2⟩
      refine ⟨h1, ?_⟩
      rintro ⟨r, hr, hid, hold⟩
      rw [Bool.not_eq_true'] at h2
      have hnotmem : res.runId ∉ (db.runs.filter
          (fun r => isoBeforeDt r.timestamp (cutoffOf st.retentionDays now))).map
            (fun r => r.id) := by simpa using h2
      refine hnotmem ?_
      refine List.mem_map.mpr ⟨r, ?_, hid⟩
      exact List.mem_filter.mpr ⟨hr, by simpa [isoBeforeDt] using hold⟩
    · rintro ⟨h1, h2⟩
      refine ⟨h1, ?_⟩
      rw [Bool.not_eq_true']
      have hnotmem : res.runId ∉ (db.runs.filter
          (fun r => isoBeforeDt r.timestamp (cutoffOf st.retentionDays now))).map
            (fun r => r.id) := by
        intro hmem
        obtain ⟨r, hrf, hid⟩ := List.mem_map.mp hmem
        obtain ⟨hr, hold⟩ := List.mem_filter.mp hrf
        exact h2 ⟨r, hr, hid, by simpa [isoBeforeDt] using hold⟩
      simpa using hnotmem
  refine ⟨cleanupDb st.retentionDays now db, hstep, rfl, ?_, ?_, ?_, rfl, rfl⟩
  · intro r hr
    simp only [cleanupDb, List.mem_filter, Bool.not_eq_eq_eq_not, Bool.not_true,
      isoBeforeDt, decide_eq_false_iff_not]
    constructor
    · intro h; exact h.2
    · intro h; exact ⟨hr, h⟩
  · intro res hres
    rw [hresmem res]
    constructor
    · intro h; exact h.2
    · intro h; exact ⟨hres, h⟩
  · intro res hres r hr hid hold
    have h2 := (hresmem res).mp hres
    exact h2.2 ⟨r, hr, hid, hold⟩

/-- Witness for `cleanup_retention`: retention 30 against `c6Db` at day 60 —
only the 10-day-old run survives and the result row of the old run goes with
it. -/
theorem cleanup_retention_witness :
    ∃ db2, cleanupIdx (86400 * 60) c6St = { c6St with db := some db2 }
      ∧ db2.runs = c6Db.runs.filter
          (fun r => !(isoBeforeDt r.timestamp (cutoffOf c6St.retentionDays (86400 * 60))))
      ∧ (∀ r ∈ c6Db.runs, (r ∈ db2.runs ↔
          ¬ dayOf r.timestamp < dayOf (cutoffOf c6St.retentionDays (86400 * 60))))
      ∧ (∀ res ∈ c6Db.results,
          (res ∈ db2.results ↔ ¬ ∃ r, r ∈ c6Db.runs ∧ r.id = res.runId ∧
            dayOf r.timestamp < dayOf (cutoffOf c6St.retentionDays (86400 * 60))))
      ∧ (∀ res ∈ db2.results, ∀ r ∈ c6Db.runs, r.id = res.runId →
          ¬ dayOf r.timestamp < dayOf (cutoffOf c6St.retentionDays (86400 * 60)))
      ∧ db2.nextRunId = c6Db.nextRunId ∧ db2.nextResultId = c6Db.nextResultId :=
  cleanup_retention (86400 * 60) c6St c6Db rfl rfl (by decide)

/-- C6 counterexample to the claim as stated: the only run of the store is
30 days and 22 hours old, strictly older than the 30-day retention, yet
cleanup leaves the whole store untouched, result row included, because the
run shares the UTC date of the cutoff and the T of the ISO timestamp format
outranks the space of the datetime format in the text comparison. -/
theorem cleanup_window_counterexample :
    (∀ r ∈ c6bDb.runs, 30 * 86400 < (86400 * 60 + 82800) - r.timestamp) ∧
    cleanupIdx (86400 * 60 + 82800) c6bSt = c6bSt := by
  constructor
  · decide
  · decide

/-- C4 (amended): getFlakiness on an enabled initialized store returns
nothing exactly when the test has no rows in the window, and otherwise an
aggregate whose isFlaky is true iff the window holds both a pass and a fail,
whose totalRuns, passes and failures count the window rows, and whose pass
rate is the pass percentage at one-decimal precision (tenths of a percent,
half-up); and the window consists of exactly the rows of the test whose
owning run has its UTC date on or after the UTC date of datetime(now,
-windowDays days) — the date-granular reading that the raw text comparison
between the ISO timestamp and the datetime cutoff gives, which admits runs
up to a day older than windowDays. -/
theorem getFlakiness_spec (openOk : Bool) (now : Int) (st : IndexState)
    (db : DbState) (t : String) (w : Nat)
    (hinit : st.initialized = true) (hdb : st.db = some db)
    (hen : st.enabled = true) :
    ((getFlakiness openOk now st t w).2 = none ↔ windowEntries db t w now = [])
    ∧ (∀ r, (getFlakiness openOk now st t w).2 = some r →
        ((r.isFlaky = true) ↔
          ((∃ e ∈ windowEntries db t w now, e.status = "pass")
            ∧ (∃ e ∈ windowEntries db t w now, e.status = "fail")))
        ∧ r.totalRuns = (windowEntries db t w now).length
        ∧ r.passes = ((windowEntries db t w now).filter
            (fun e => e.status == "pass")).length
        ∧ r.failures = ((windowEntries db t w now).filter
            (fun e => e.status == "fail")).length
        ∧ r.passRateTenths = (2000 * r.passes + r.totalRuns) / (2 * r.totalRuns))
    ∧ (∀ e, e ∈ windowEntries db t w now ↔
        (e ∈ db.results ∧ e.testName = t ∧
          ∃ run, db.runs.find? (fun run2 => run2.id == e.runId) = some run ∧
            dayOf (now - w * 86400) ≤ dayOf run.timestamp)) := by
  have hwin : ∀ e, e ∈ windowEntries db t w now ↔
      (e ∈ db.results ∧ e.testName = t ∧
        ∃ run, db.runs.find? (fun run2 => run2.id == e.runId) = some run ∧
          dayOf (now - w * 86400) ≤ dayOf run.timestamp) := by
    intro e
    simp only [windowEntries, List.mem_filter, Bool.and_eq_true, beq_iff_eq]
    constructor
    · rintro ⟨h1, h2, h3⟩
      refine ⟨h1, h2, ?_⟩
      rcases hf : db.runs.find? (fun run2 => run2.id == e.runId) with _ | run
      · rw [hf] at h3
        simp at h3
      · rw [hf] at h3
        replace h3 : isoAfterDt run.timestamp (now - w * 86400) = true := h3
        exact ⟨run, hf, by simpa [isoAfterDt] using h3⟩
    · rintro ⟨h1, h2, run, hf, hle⟩
      refine ⟨h1, h2, ?_⟩
      rw [hf]
      show isoAfterDt run.timestamp (now - w * 86400) = true
      simpa [isoAfterDt] using hle
  have hi := initStore_of_initialized openOk now st hinit
  have hpassx : ∀ (l : List ResultRow) (sstr : String),
      (0 < (l.filter (fun e => e.status == sstr)).length
        ↔ ∃ e ∈ l, e.status = sstr) := by
    intro l sstr
    rw [List.length_pos_iff_exists_mem]
    constructor
    · rintro ⟨e, he⟩
      rw [List.mem_filter] at he
      exact ⟨e, he.1, by simpa using he.2⟩
    · rintro ⟨e, he, hs⟩
      exact ⟨e, List.mem_filter.mpr ⟨he, by simpa using hs⟩⟩
  unfold getFlakiness
  simp only [hi, hdb, hen, Bool.not_true, Bool.false_eq_true, if_false]
  by_cases hz : (windowEntries db t w now).length = 0
  · rw [if_pos hz]
    refine ⟨?_, ?_, hwin⟩
    · simp only [true_iff]
      exact List.length_eq_zero.mp hz
    · intro r hr
      exact Option.noConfusion hr
  · rw [if_neg hz]
    refine ⟨?_, ?_, hwin⟩
    · constructor
      · intro h; exact Option.noConfusion h
      · intro h
        rw [h] at hz
        simp at hz
    · intro r hr
      simp only [Option.some.injEq] at hr
      rw [← hr]
      refine ⟨?_, rfl, rfl, rfl, rfl⟩
      simp only [Bool.and_eq_true, decide_eq_true_eq]
      rw [← hpassx (windowEntries db t w now) "pass",
        ← hpassx (windowEntries db t w now) "fail"]

/-- Witness for `getFlakiness_spec` at the concrete store `c4St`: one pass
and one fail of the same test inside the 7-day window. -/
theorem getFlakiness_spec_witness :
    ((getFlakiness true (86400 * 10) c4St "tA" 7).2 = none
      ↔ windowEntries c4Db "tA" 7 (86400 * 10) = [])
    ∧ (∀ r, (getFlakiness true (86400 * 10) c4St "tA" 7).2 = some r →
        ((r.isFlaky = true) ↔
          ((∃ e ∈ windowEntries c4Db "tA" 7 (86400 * 10), e.status = "pass")
            ∧ (∃ e ∈ windowEntries c4Db "tA" 7 (86400 * 10), e.status = "fail")))
        ∧ r.totalRuns = (windowEntries c4Db "tA" 7 (86400 * 10)).length
        ∧ r.passes = ((windowEntries c4Db "tA" 7 (86400 * 10)).filter
            (fun e => e.status == "pass")).length
        ∧ r.failures = ((windowEntries c4Db "tA" 7 (86400 * 10)).filter
            (fun e => e.status == "fail")).length
        ∧ r.passRateTenths = (2000 * r.passes + r.totalRuns) / (2 * r.totalRuns))
    ∧ (∀ e, e ∈ windowEntries c4Db "tA" 7 (86400 * 10) ↔
        (e ∈ c4Db.results ∧ e.testName = "tA" ∧
          ∃ run, c4Db.runs.find? (fun run2 => run2.id == e.runId) = some run ∧
            dayOf ((86400 * 10) - 7 * 86400) ≤ dayOf run.timestamp)) :=
  getFlakiness_spec true (86400 * 10) c4St c4Db "tA" 7 rfl rfl rfl

/-- C4 counterexample to the claim as stated: the only run of the store is
7 days and 22 hours old, strictly outside the 7-day window, yet getFlakiness
returns an aggregate counting its row, because the run shares the UTC date
of the cutoff and the T of the ISO timestamp format outranks the space of
the datetime format in the text comparison. -/
theorem getFlakiness_window_counterexample :
    (∀ run ∈ c4bDb.runs, 7 * 86400 < (86400 * 10 + 82800) - run.timestamp) ∧
    (getFlakiness true (86400 * 10 + 82800) c4bSt "tA" 7).2
      = some { passRateTenths := 1000, isFlaky := false,
               totalRuns := 1, passes := 1, failures := 0 } := by
  constructor
  · decide
  · decide

theorem dedupFirstAux_sub [DecidableEq α] (seen : List α) (l : List α) :
    ∀ x ∈ dedupFirstAux seen l, x ∈ l := by
  induction l generalizing seen with
  | nil => intro x hx; cases hx
  | cons a t ih =>
    intro x hx
    by_cases ha : seen.contains a
    · simp only [dedupFirstAux, ha, if_pos] at hx
      exact List.mem_cons_of_mem a (ih seen x hx)
    · simp only [dedupFirstAux, ha, Bool.false_eq_true, if_false] at hx
      rcases List.mem_cons.mp hx with h1 | h1
      · rw [h1]; exact List.mem_cons_self a t
      · exact List.mem_cons_of_mem a (ih (a :: seen) x h1)

theorem dedupFirstAux_spec [DecidableEq α] (seen : List α) (l : List α) :
    (dedupFirstAux seen l).Nodup ∧ ∀ x ∈ dedupFirstAux seen l, x ∉ seen := by
  induction l generalizing seen with
  | nil => exact ⟨List.nodup_nil, by intro x hx; cases hx⟩
  | cons a t ih =>
    by_cases ha : seen.contains a
    · simp only [dedupFirstAux, ha, if_pos]
      exact ih seen
    · simp only [dedupFirstAux, ha, Bool.false_eq_true, if_false]
      obtain ⟨hnd, hns⟩ := ih (a :: seen)
      have hane : a ∉ seen := by simpa using ha
      constructor
      · refine List.nodup_cons.mpr ⟨?_, hnd⟩
        intro hmem
        have := hns a hmem
        exact this (List.mem_cons_self a seen)
      · intro x hx
        rcases List.mem_cons.mp hx with h1 | h1
        · rw [h1]; exact hane
        · intro hxs
          exact hns x h1 (List.mem_cons_of_mem a hxs)

/-- C8: for every hash, findSimilarFailures on an enabled initialized store
returns at most 10 rows, sorted by occurrence count descending, with pairwise
distinct (testName, file) keys, and each returned row counts exactly the
failing entries carrying that errorHash for its key, is nonempty, and stems
from an actual matching entry. -/
theorem findSimilarFailures_spec (openOk : Bool) (now : Int) (st : IndexState)
    (db : DbState) (h : String)
    (hinit : st.initialized = true) (hdb : st.db = some db)
    (hen : st.enabled = true) :
    (findSimilarFailures openOk now st h).2.length ≤ 10
    ∧ ((findSimilarFailures openOk now st h).2).Pairwise
        (fun a b => b.occurrences ≤ a.occurrences)
    ∧ (((findSimilarFailures openOk now st h).2).map
        (fun r => (r.testName, r.file))).Nodup
    ∧ (∀ r ∈ (findSimilarFailures openOk now st h).2,
        r.occurrences = ((similarMatches db h).filter
          (fun e => e.testName == r.testName && e.file == r.file)).length
        ∧ 0 < r.occurrences
        ∧ ∃ e ∈ similarMatches db h, e.testName = r.testName ∧ e.file = r.file) := by
  have hi := initStore_of_initialized openOk now st hinit
  by_cases hguard : h = ""
  · have heq : (findSimilarFailures openOk now st h).2 = [] := by
      unfold findSimilarFailures
      simp [hi, hdb, hen, hguard]
    rw [heq]
    exact ⟨by simp, by simp, by simp, by intro r hr; cases hr⟩
  · set ms := similarMatches db h with hms
    set keys := dedupFirstAux [] (ms.map (fun r => (r.testName, r.file))) with hkeys
    set mk := fun (k : String × String) =>
      ({ testName := k.1
         file := k.2
         occurrences := (ms.filter
           (fun r => r.testName == k.1 && r.file == k.2)).length } : SimilarRow)
      with hmk
    set rows0 := keys.map mk with hrows0
    set le := fun (a b : SimilarRow) => decide (b.occurrences ≤ a.occurrences)
      with hle
    have heq : (findSimilarFailures openOk now st h).2 = (sortBy le rows0).take 10 := by
      unfold findSimilarFailures
      simp only [hi, hdb, hen, Bool.not_true, Bool.false_eq_true, if_false]
      rw [if_neg hguard]
    rw [heq]
    have hsub : ∀ r ∈ (sortBy le rows0).take 10, r ∈ rows0 := by
      intro r hr
      have h1 : r ∈ sortBy le rows0 :=
        (List.take_sublist 10 (sortBy le rows0)).mem hr
      exact (sortBy_perm le rows0).mem_iff.mp h1
    refine ⟨?_, ?_, ?_, ?_⟩
    · exact List.length_take_le 10 _
    · have hp := sortBy_pairwise le
        (by
          intro a b
          simp only [hle]
          rcases Nat.le_total b.occurrences a.occurrences with h1 | h1 <;> simp [h1])
        (by
          intro a b c h1 h2
          simp only [hle, decide_eq_true_eq] at h1 h2 ⊢
          omega)
        rows0
      have hp2 := hp.imp (fun hab => by simpa [hle] using hab)
      exact List.Pairwise.sublist (List.take_sublist 10 (sortBy le rows0)) hp2
    · have hmapmap : rows0.map (fun r => (r.testName, r.file)) = keys := by
        rw [hrows0, List.map_map]
        have hfid : ((fun (r : SimilarRow) => (r.testName, r.file)) ∘ mk)
            = fun (k : String × String) => k := by
          funext k
          rfl
        rw [hfid, List.map_id']
      have hnodk : keys.Nodup := (dedupFirstAux_spec [] _).1
      have hnod2 : ((sortBy le rows0).map (fun r => (r.testName, r.file))).Nodup := by
        rw [((sortBy_perm le rows0).map
          (fun r => (r.testName, r.file))).nodup_iff, hmapmap]
        exact hnodk
      rw [List.map_take]
      exact List.Nodup.sublist (List.take_sublist 10 _) hnod2
    · intro r hr
      have hr0 : r ∈ rows0 := hsub r hr
      obtain ⟨k, hk, hrk⟩ := List.mem_map.mp hr0
      have hkm : k ∈ ms.map (fun e => (e.testName, e.file)) :=
        dedupFirstAux_sub [] _ k hk
      obtain ⟨e, he, hek⟩ := List.mem_map.mp hkm
      have ht : r.testName = k.1 := by rw [← hrk]
      have hf : r.file = k.2 := by rw [← hrk]
      have hcount : r.occurrences = (ms.filter
          (fun x => x.testName == k.1 && x.file == k.2)).length := by rw [← hrk]
      refine ⟨?_, ?_, ?_⟩
      · rw [hcount, ht, hf]
      · rw [hcount]
        have hemem : e ∈ ms.filter (fun x => x.testName == k.1 && x.file == k.2) := by
          refine List.mem_filter.mpr ⟨he, ?_⟩
          rw [← hek]
          simp
        exact List.length_pos_iff_exists_mem.mpr ⟨e, hemem⟩
      · refine ⟨e, he, ?_, ?_⟩
        · rw [ht, ← hek]
        · rw [hf, ← hek]

/-- Witness for `findSimilarFailures_spec` at the concrete store `c8St`: two
failing rows with the shared hash HX in two different tests. -/
theorem findSimilarFailures_spec_witness :
    (findSimilarFailures true 0 c8St "HX").2.length ≤ 10
    ∧ ((findSimilarFailures true 0 c8St "HX").2).Pairwise
        (fun a b => b.occurrences ≤ a.occurrences)
    ∧ (((findSimilarFailures true 0 c8St "HX").2).map
        (fun r => (r.testName, r.file))).Nodup
    ∧ (∀ r ∈ (findSimilarFailures true 0 c8St "HX").2,
        r.occurrences = ((similarMatches c8Db "HX").filter
          (fun e => e.testName == r.testName && e.file == r.file)).length
        ∧ 0 < r.occurrences
        ∧ ∃ e ∈ similarMatches c8Db "HX",
            e.testName = r.testName ∧ e.file = r.file) :=
  findSimilarFailures_spec true 0 c8St c8Db "HX" rfl rfl rfl

/-- C10: a failing entry whose error message is empty (or absent, both falsy)
is stored with a null errorHash — the empty message is never normalized and
hashed — and such rows never contribute to findSimilarFailures: appending one
to the results table leaves every findSimilarFailures answer unchanged, for
every hash value. -/
theorem emptyMessage_nullHash (rid resultId : Nat) (test : Failure)
    (e : ErrObj) (he : test.e = some e) (hmsg : e.msg = "") :
    (toResultRow rid resultId test).errorHash = none
    ∧ (toResultRow rid resultId test).status = "fail"
    ∧ (∀ (openOk : Bool) (now : Int) (st : IndexState) (db : DbState) (h : String),
        st.initialized = true → st.db = some db →
        (findSimilarFailures openOk now
            (withExtraRow st db (toResultRow rid resultId test)) h).2
          = (findSimilarFailures openOk now st h).2) := by
  have hhash : (toResultRow rid resultId test).errorHash = none := by
    simp [toResultRow, he, hashError, hmsg]
  refine ⟨hhash, by simp [toResultRow, he], ?_⟩
  intro openOk now st db h hinit hdb
  have hi := initStore_of_initialized openOk now st hinit
  have hinit2 : (withExtraRow st db (toResultRow rid resultId test)).initialized
      = true := hinit
  have hi2 := initStore_of_initialized openOk now _ hinit2
  have hsm : similarMatches
      { db with results := db.results ++ [toResultRow rid resultId test] } h
      = similarMatches db h := by
    unfold similarMatches
    simp only [List.filter_append]
    rw [List.filter_singleton]
    simp [hhash]
  unfold findSimilarFailures
  rw [hi, hi2]
  simp only [withExtraRow, hdb]
  by_cases hen : st.enabled = true
  · simp only [hen, Bool.not_true, Bool.false_eq_true, if_false]
    by_cases hguard : h = ""
    · rw [if_pos hguard, if_pos hguard]
    · rw [if_neg hguard, if_neg hguard]
      simp only [hsm]
  · simp only [Bool.not_eq_true] at hen
    simp only [hen, Bool.not_false, if_true]

/-- Witness for `emptyMessage_nullHash`: a concrete failing entry with empty
message. -/
theorem emptyMessage_nullHash_witness :
    (toResultRow 1 1 ⟨"tX", "x.js", some ⟨"TypeError", ""⟩, 0, none⟩).errorHash = none
    ∧ (toResultRow 1 1 ⟨"tX", "x.js", some ⟨"TypeError", ""⟩, 0, none⟩).status = "fail"
    ∧ (∀ (openOk : Bool) (now : Int) (st : IndexState) (db : DbState) (h : String),
        st.initialized = true → st.db = some db →
        (findSimilarFailures openOk now
            (withExtraRow st db
              (toResultRow 1 1 ⟨"tX", "x.js", some ⟨"TypeError", ""⟩, 0, none⟩)) h).2
          = (findSimilarFailures openOk now st h).2) :=
  emptyMessage_nullHash 1 1 ⟨"tX", "x.js", some ⟨"TypeError", ""⟩, 0, none⟩
    ⟨"TypeError", ""⟩ rfl rfl

/- Lemmas about the hashError normalization (claim C2). -/

theorem drop_takeWhile_eq_dropWhile (p : Char → Bool) (l : List Char) :
    l.drop (l.takeWhile p).length = l.dropWhile p := by
  induction l with
  | nil => rfl
  | cons c r ih =>
    by_cases hp : p c
    · simp [List.takeWhile_cons, List.dropWhile_cons, hp, ih]
    · simp [List.takeWhile_cons, List.dropWhile_cons, hp]

theorem head_dropWhile_false (p : Char → Bool) (l : List Char) (c : Char)
    (h : (l.dropWhile p).head? = some c) : p c = false := by
  have h2 := List.head?_dropWhile_not p l
  rw [h] at h2
  exact h2

theorem tryLC_some (s rem : List Char) (h : tryLC s = some rem) :
    ∃ d1 d2, s = d1 ++ ':' :: (d2 ++ rem)
      ∧ d1 ≠ [] ∧ d2 ≠ [] ∧ (∀ c ∈ d1, c.isDigit) ∧ (∀ c ∈ d2, c.isDigit)
      ∧ (∀ c, rem.head? = some c → ¬ c.isDigit) := by
  unfold tryLC at h
  by_cases h1 : (s.takeWhile Char.isDigit).isEmpty
  · rw [if_pos h1] at h; cases h
  rw [if_neg h1] at h
  rw [drop_takeWhile_eq_dropWhile] at h
  rcases h2 : s.dropWhile Char.isDigit with _ | ⟨c, t⟩
  · rw [h2] at h; cases h
  rw [h2] at h
  replace h : (if (c == ':') = true then
      (if (t.takeWhile Char.isDigit).isEmpty = true then none
       else some (t.drop (t.takeWhile Char.isDigit).length))
      else none) = some rem := h
  by_cases h3 : c == ':'
  · rw [if_pos h3] at h
    by_cases h4 : (t.takeWhile Char.isDigit).isEmpty
    · rw [if_pos h4] at h; cases h
    rw [if_neg h4] at h
    simp only [Option.some.injEq] at h
    rw [drop_takeWhile_eq_dropWhile] at h
    have hc : c = ':' := by simpa using h3
    refine ⟨s.takeWhile Char.isDigit, t.takeWhile Char.isDigit, ?_, ?_, ?_, ?_, ?_, ?_⟩
    · calc s = s.takeWhile Char.isDigit ++ (c :: t) := by
                conv_lhs => rw [← List.takeWhile_append_dropWhile Char.isDigit s]
                rw [h2]
        _ = s.takeWhile Char.isDigit ++
              (':' :: (t.takeWhile Char.isDigit ++ t.dropWhile Char.isDigit)) := by
                rw [hc, List.takeWhile_append_dropWhile]
        _ = s.takeWhile Char.isDigit ++
              ':' :: (t.takeWhile Char.isDigit ++ rem) := by rw [h]
    · simpa [List.isEmpty_iff] using h1
    · simpa [List.isEmpty_iff] using h4
    · intro x hx; exact List.mem_takeWhile_imp hx
    · intro x hx; exact List.mem_takeWhile_imp hx
    · intro x hx
      rw [← h] at hx
      have := head_dropWhile_false Char.isDigit t x hx
      simp [this]
  · rw [if_neg h3] at h; cases h

theorem tryLC_le (s rem : List Char) (h : tryLC s = some rem) :
    rem.length ≤ s.length := by
  obtain ⟨d1, d2, hs, _, _, _, _, _⟩ := tryLC_some s rem h
  rw [hs]
  simp only [List.length_append, List.length_cons]
  omega

theorem p1_zero (l : List Char) : p1 0 l = l := rfl

theorem p1_succ_colon_none (fuel : Nat) (l : List Char) (h : tryLC l = none) :
    p1 (fuel + 1) (':' :: l) = ':' :: p1 fuel l := by
  simp [p1, h]

theorem p1_succ_colon_some (fuel : Nat) (l rem : List Char)
    (h : tryLC l = some rem) :
    p1 (fuel + 1) (':' :: l) = ':' :: 'X' :: ':' :: 'X' :: p1 fuel rem := by
  simp [p1, h]

theorem p1_succ_ne (fuel : Nat) (c : Char) (l : List Char)
    (hc : (c == ':') = false) : p1 (fuel + 1) (c :: l) = c :: p1 fuel l := by
  simp [p1, hc]

theorem p1_fuel_eq (f1 : Nat) : ∀ (f2 : Nat) (l : List Char),
    l.length ≤ f1 → l.length ≤ f2 → p1 f1 l = p1 f2 l := by
  induction f1 with
  | zero =>
    intro f2 l h1 h2
    have : l = [] := List.length_eq_zero.mp (Nat.le_zero.mp h1)
    subst this
    cases f2 <;> rfl
  | succ n ih =>
    intro f2 l h1 h2
    rcases l with _ | ⟨c, rest⟩
    · cases f2 <;> rfl
    rcases f2 with _ | f2'
    · simp at h2
    simp only [List.length_cons, Nat.succ_le_succ_iff] at h1 h2
    by_cases hc : c == ':'
    · have hc2 : c = ':' := by simpa using hc
      subst hc2
      rcases htry : tryLC rest with _ | rem
      · rw [p1_succ_colon_none n rest htry, p1_succ_colon_none f2' rest htry,
          ih f2' rest h1 h2]
      · have hle := tryLC_le rest rem htry
        rw [p1_succ_colon_some n rest rem htry, p1_succ_colon_some f2' rest rem htry,
          ih f2' rem (Nat.le_trans hle h1) (Nat.le_trans hle h2)]
    · have hc2 : (c == ':') = false := by simpa using hc
      rw [p1_succ_ne n c rest hc2, p1_succ_ne f2' c rest hc2, ih f2' rest h1 h2]

theorem runP1_fuel (fuel : Nat) (l : List Char) (h : l.length ≤ fuel) :
    p1 fuel l = runP1 l :=
  p1_fuel_eq fuel l.length l h (Nat.le_refl _)

theorem runP1_nil : runP1 [] = [] := rfl

theorem runP1_cons_ne (c : Char) (l : List Char) (hc : (c == ':') = false) :
    runP1 (c :: l) = c :: runP1 l := by
  show p1 (l.length + 1) (c :: l) = c :: runP1 l
  rw [p1_succ_ne l.length c l hc]
  rfl

theorem runP1_colon_none (l : List Char) (h : tryLC l = none) :
    runP1 (':' :: l) = ':' :: runP1 l := by
  show p1 (l.length + 1) (':' :: l) = ':' :: runP1 l
  rw [p1_succ_colon_none l.length l h]
  rfl

theorem runP1_colon_some (l rem : List Char) (h : tryLC l = some rem) :
    runP1 (':' :: l) = ':' :: 'X' :: ':' :: 'X' :: runP1 rem := by
  show p1 (l.length + 1) (':' :: l) = ':' :: 'X' :: ':' :: 'X' :: runP1 rem
  rw [p1_succ_colon_some l.length l rem h]
  rw [runP1_fuel l.length rem (tryLC_le l rem h)]

theorem runP1_digits (d : List Char) (y : List Char)
    (hd : ∀ c ∈ d, c.isDigit) : runP1 (d ++ y) = d ++ runP1 y := by
  induction d with
  | nil => rfl
  | cons c d' ih =>
    have hcd : c.isDigit := hd c (List.mem_cons_self c d')
    have hc : (c == ':') = false := by
      rcases hcc : c == ':' with _ | _
      · rfl
      · have : c = ':' := by simpa using hcc
        rw [this] at hcd
        simp at hcd
    rw [List.cons_append, runP1_cons_ne c (d' ++ y) hc,
      ih (fun x hx => hd x (List.mem_cons_of_mem c hx))]
    rfl

theorem sqd_cons_nondigit (b : Bool) (c : Char) (l : List Char)
    (hc : c.isDigit = false) : sqd b (c :: l) = c :: sqd false l := by
  simp [sqd, hc]

theorem sqd_true_digits (d : List Char) (y : List Char)
    (hd : ∀ c ∈ d, c.isDigit) : sqd true (d ++ y) = sqd true y := by
  induction d with
  | nil => rfl
  | cons c d' ih =>
    have hcd : c.isDigit := hd c (List.mem_cons_self c d')
    simp only [List.cons_append, sqd, hcd, if_pos]
    exact ih (fun x hx => hd x (List.mem_cons_of_mem c hx))

theorem sqd_false_digits (d : List Char) (y : List Char) (hne : d ≠ [])
    (hd : ∀ c ∈ d, c.isDigit) : sqd false (d ++ y) = 'N' :: sqd true (d.tail ++ y) := by
  rcases d with _ | ⟨c, d'⟩
  · exact absurd rfl hne
  have hcd : c.isDigit := hd c (List.mem_cons_self c d')
  simp [sqd, hcd]

theorem sqd_true_eq_false_of_head (l : List Char)
    (h : ∀ c, l.head? = some c → ¬ c.isDigit) : sqd true l = sqd false l := by
  rcases l with _ | ⟨c, r⟩
  · rfl
  have hc : c.isDigit = false := by
    have := h c rfl
    simpa using this
  simp [sqd, hc]

theorem runP1_head_nondigit (l : List Char)
    (h : ∀ c, l.head? = some c → ¬ c.isDigit) :
    ∀ c, (runP1 l).head? = some c → ¬ c.isDigit := by
  rcases l with _ | ⟨c, r⟩
  · intro x hx; cases hx
  have hcd : ¬ c.isDigit := h c rfl
  by_cases hc : c == ':'
  · have hc2 : c = ':' := by simpa using hc
    subst hc2
    rcases htry : tryLC r with _ | rem
    · rw [runP1_colon_none r htry]
      intro x hx
      simp only [List.head?_cons, Option.some.injEq] at hx
      rw [← hx]
      simp
    · rw [runP1_colon_some r rem htry]
      intro x hx
      simp only [List.head?_cons, Option.some.injEq] at hx
      rw [← hx]
      simp
  · rw [runP1_cons_ne c r (by simpa using hc)]
    intro x hx
    simp only [List.head?_cons, Option.some.injEq] at hx
    rw [← hx]
    exact hcd

theorem length_dropWhile_le (p : Char → Bool) (l : List Char) :
    (l.dropWhile p).length ≤ l.length := by
  conv_rhs => rw [← List.takeWhile_append_dropWhile p l]
  rw [List.length_append]
  omega

theorem dropWhile_of_head (p : Char → Bool) (y : List Char)
    (hy : ∀ c, y.head? = some c → p c = false) : y.dropWhile p = y := by
  rcases y with _ | ⟨c, r⟩
  · rfl
  · rw [List.dropWhile_cons, if_neg]
    rw [hy c rfl]
    simp

theorem dropWhile_digits_append (d y : List Char)
    (hd : ∀ c ∈ d, c.isDigit)
    (hy : ∀ c, y.head? = some c → ¬ c.isDigit) :
    (d ++ y).dropWhile Char.isDigit = y := by
  induction d with
  | nil =>
    simp only [List.nil_append]
    refine dropWhile_of_head Char.isDigit y ?_
    intro c hc
    have := hy c hc
    simpa using this
  | cons c d' ih =>
    have hcd : c.isDigit := hd c (List.mem_cons_self c d')
    rw [List.cons_append, List.dropWhile_cons, if_pos hcd]
    exact ih (fun x hx => hd x (List.mem_cons_of_mem c hx))

theorem skelGo_true_drop (l : List Char) :
    skelGo true l = skel (l.dropWhile Char.isDigit) := by
  induction l with
  | nil => rfl
  | cons c r ih =>
    by_cases hc : c.isDigit
    · rw [List.dropWhile_cons, if_pos hc]
      have e : skelGo true (c :: r) = skelGo true r := by
        simp [skelGo, hc]
      rw [e, ih]
    · have hc2 : c.isDigit = false := by simpa using hc
      rw [List.dropWhile_cons, if_neg (by simp [hc2])]
      simp [skelGo, skel, hc2]

theorem skel_cons_nondigit (c : Char) (l : List Char) (hc : c.isDigit = false) :
    skel (c :: l) = Seg.ch c :: skel l := by
  simp only [skel, skelGo, hc, Bool.false_eq_true, if_false]

theorem skel_cons_digit (c : Char) (l : List Char) (hc : c.isDigit = true) :
    skel (c :: l) = Seg.run :: skel (l.dropWhile Char.isDigit) := by
  have e : skel (c :: l) = Seg.run :: skelGo true l := by
    simp [skel, skelGo, hc]
  rw [e, skelGo_true_drop]

theorem skel_digits_append (d y : List Char) (hne : d ≠ [])
    (hd : ∀ c ∈ d, c.isDigit)
    (hy : ∀ c, y.head? = some c → ¬ c.isDigit) :
    skel (d ++ y) = Seg.run :: skel y := by
  rcases d with _ | ⟨c, d'⟩
  · exact absurd rfl hne
  have hcd : c.isDigit := hd c (List.mem_cons_self c d')
  rw [List.cons_append, skel_cons_digit c (d' ++ y) hcd,
    dropWhile_digits_append d' y (fun x hx => hd x (List.mem_cons_of_mem c hx)) hy]

theorem skel_run_inv (x : List Char) (segs : List Seg)
    (h : skel x = Seg.run :: segs) :
    x.takeWhile Char.isDigit ≠ [] ∧ skel (x.dropWhile Char.isDigit) = segs := by
  rcases x with _ | ⟨c, r⟩
  · cases h
  by_cases hc : c.isDigit
  · rw [skel_cons_digit c r hc, List.cons.injEq] at h
    refine ⟨?_, ?_⟩
    · rw [List.takeWhile_cons, if_pos hc]
      simp
    · rw [List.dropWhile_cons, if_pos hc]
      exact h.2
  · have hc2 : c.isDigit = false := by simpa using hc
    rw [skel_cons_nondigit c r hc2] at h
    cases h

theorem skel_ch_inv (x : List Char) (c : Char) (segs : List Seg)
    (h : skel x = Seg.ch c :: segs) :
    ∃ x2, x = c :: x2 ∧ c.isDigit = false ∧ skel x2 = segs := by
  rcases x with _ | ⟨a, r⟩
  · cases h
  by_cases ha : a.isDigit
  · rw [skel_cons_digit a r ha] at h
    cases h
  · have ha2 : a.isDigit = false := by simpa using ha
    rw [skel_cons_nondigit a r ha2, List.cons.injEq, Seg.ch.injEq] at h
    obtain ⟨h1, h2⟩ := h
    subst h1
    exact ⟨r, rfl, ha2, h2⟩

theorem takeWhile_digits_append (d y : List Char)
    (hd : ∀ c ∈ d, c.isDigit)
    (hy : ∀ c, y.head? = some c → ¬ c.isDigit) :
    (d ++ y).takeWhile Char.isDigit = d := by
  induction d with
  | nil =>
    rcases y with _ | ⟨c, r⟩
    · rfl
    · have := hy c rfl
      simp only [List.nil_append, List.takeWhile_cons]
      rw [if_neg (by simpa using this)]
  | cons c d2 ih =>
    rw [List.cons_append, List.takeWhile_cons, if_pos (hd c (List.mem_cons_self c d2))]
    rw [ih (fun x hx => hd x (List.mem_cons_of_mem c hx))]

theorem tryLC_build (d1 d2 rem : List Char)
    (h1 : d1 ≠ []) (h2 : d2 ≠ [])
    (ha1 : ∀ c ∈ d1, c.isDigit) (ha2 : ∀ c ∈ d2, c.isDigit)
    (hh : ∀ c, rem.head? = some c → ¬ c.isDigit) :
    tryLC (d1 ++ ':' :: (d2 ++ rem)) = some rem := by
  have htw1 : (d1 ++ ':' :: (d2 ++ rem)).takeWhile Char.isDigit = d1 :=
    takeWhile_digits_append d1 _ ha1
      (by intro c hc; simp only [List.head?_cons, Option.some.injEq] at hc; rw [← hc]; decide)
  have htw2 : (d2 ++ rem).takeWhile Char.isDigit = d2 :=
    takeWhile_digits_append d2 rem ha2 hh
  have hne1 : d1.isEmpty = false := by simpa [List.isEmpty_iff] using h1
  have hne2 : d2.isEmpty = false := by simpa [List.isEmpty_iff] using h2
  simp [tryLC, htw1, htw2, hne1, hne2, List.drop_left]

theorem tryLC_of_skel (rest : List Char) (tail : List Seg)
    (h : skel rest = Seg.run :: Seg.ch ':' :: Seg.run :: tail) :
    ∃ rem, tryLC rest = some rem ∧ skel rem = tail := by
  obtain ⟨hd1, hrest1⟩ := skel_run_inv rest _ h
  obtain ⟨x2, hx2, _, hx2s⟩ := skel_ch_inv (rest.dropWhile Char.isDigit) ':' _ hrest1
  obtain ⟨hd2, hrem⟩ := skel_run_inv x2 _ hx2s
  refine ⟨x2.dropWhile Char.isDigit, ?_, hrem⟩
  have e1 : rest = rest.takeWhile Char.isDigit ++ (':' :: x2) := by
    rw [← hx2, List.takeWhile_append_dropWhile]
  have e2 : x2 = x2.takeWhile Char.isDigit ++ x2.dropWhile Char.isDigit := by
    rw [List.takeWhile_append_dropWhile]
  rw [e1]
  nth_rewrite 1 [e2]
  refine tryLC_build _ _ _ hd1 hd2 (fun c hc => List.mem_takeWhile_imp hc)
    (fun c hc => List.mem_takeWhile_imp hc) ?_
  intro c hc
  have := head_dropWhile_false Char.isDigit x2 c hc
  simp [this]

theorem p1s_run (segs : List Seg) : p1s (Seg.run :: segs) = Seg.run :: p1s segs := by
  simp [p1s]

theorem p1s_match (tail : List Seg) :
    p1s (Seg.ch ':' :: Seg.run :: Seg.ch ':' :: Seg.run :: tail)
      = Seg.ch ':' :: Seg.ch 'X' :: Seg.ch ':' :: Seg.ch 'X' :: p1s tail := by
  simp [p1s]

theorem p1s_ch_nomatch (c : Char) (segs : List Seg)
    (h : c ≠ ':' ∨ ∀ tail, segs ≠ Seg.run :: Seg.ch ':' :: Seg.run :: tail) :
    p1s (Seg.ch c :: segs) = Seg.ch c :: p1s segs := by
  rcases segs with _ | ⟨a, rest⟩
  · simp [p1s]
  · rcases a with _ | c1
    · rcases rest with _ | ⟨b, rest2⟩
      · simp [p1s]
      · rcases b with _ | c2
        · simp [p1s]
        · rcases rest2 with _ | ⟨d, rest3⟩
          · simp [p1s]
          · rcases d with _ | c3
            · by_cases hc : c = ':'
              · subst hc
                by_cases hc2 : c2 = ':'
                · subst hc2
                  rcases h with h | h
                  · exact absurd rfl h
                  · exact absurd rfl (h rest3)
                · have hb : (c2 == ':') = false := by simpa using hc2
                  simp [p1s, hb]
              · have hb : (c == ':') = false := by simpa using hc
                simp [p1s, hb]
            · simp [p1s]
    · simp [p1s]

theorem p2s_ch (c : Char) (segs : List Seg) :
    p2s (Seg.ch c :: segs) = c :: p2s segs := rfl

theorem p2s_run (segs : List Seg) :
    p2s (Seg.run :: segs) = 'N' :: p2s segs := rfl

theorem normD12_eq_skel : ∀ (n : Nat) (l : List Char), l.length ≤ n →
    normD12 l = normDs (skel l) := by
  intro n
  induction n with
  | zero =>
    intro l h
    have : l = [] := List.length_eq_zero.mp (Nat.le_zero.mp h)
    subst this
    rfl
  | succ n ih =>
    intro l hl
    rcases l with _ | ⟨c, rest⟩
    · rfl
    simp only [List.length_cons, Nat.succ_le_succ_iff] at hl
    by_cases hcd : c.isDigit
    · have hdall : ∀ x ∈ c :: rest.takeWhile Char.isDigit, x.isDigit := by
        intro x hx
        rcases List.mem_cons.mp hx with h1 | h1
        · rw [h1]; exact hcd
        · exact List.mem_takeWhile_imp h1
      have hsplit : c :: rest
          = (c :: rest.takeWhile Char.isDigit) ++ rest.dropWhile Char.isDigit := by
        rw [List.cons_append, List.takeWhile_append_dropWhile]
      have hhead : ∀ x, (rest.dropWhile Char.isDigit).head? = some x → ¬ x.isDigit := by
        intro x hx
        have := head_dropWhile_false Char.isDigit rest x hx
        simp [this]
      have hlen : (rest.dropWhile Char.isDigit).length ≤ n :=
        Nat.le_trans (length_dropWhile_le Char.isDigit rest) hl
      calc normD12 (c :: rest)
          = sqd false (runP1 ((c :: rest.takeWhile Char.isDigit)
              ++ rest.dropWhile Char.isDigit)) := by rw [normD12, ← hsplit]
        _ = sqd false ((c :: rest.takeWhile Char.isDigit)
              ++ runP1 (rest.dropWhile Char.isDigit)) := by
              rw [runP1_digits _ _ hdall]
        _ = 'N' :: sqd true (rest.takeWhile Char.isDigit
              ++ runP1 (rest.dropWhile Char.isDigit)) := by
              rw [sqd_false_digits _ _ (by simp) hdall]
              rfl
        _ = 'N' :: sqd true (runP1 (rest.dropWhile Char.isDigit)) := by
              rw [sqd_true_digits _ _
                (fun x hx => List.mem_takeWhile_imp hx)]
        _ = 'N' :: sqd false (runP1 (rest.dropWhile Char.isDigit)) := by
              rw [sqd_true_eq_false_of_head _
                (runP1_head_nondigit _ hhead)]
        _ = 'N' :: normDs (skel (rest.dropWhile Char.isDigit)) := by
              rw [← normD12]
              rw [ih _ hlen]
        _ = normDs (skel (c :: rest)) := by
              rw [skel_cons_digit c rest hcd, normDs, normDs, p1s_run, p2s_run]
    · have hcd2 : c.isDigit = false := by simpa using hcd
      by_cases hc : c = ':'
      · subst hc
        rcases htry : tryLC rest with _ | rem
        · have hnom : ∀ tail, skel rest ≠ Seg.run :: Seg.ch ':' :: Seg.run :: tail := by
            intro tail hcontra
            obtain ⟨rem, hsome, _⟩ := tryLC_of_skel rest tail hcontra
            rw [htry] at hsome
            cases hsome
          calc normD12 (':' :: rest)
              = sqd false (':' :: runP1 rest) := by rw [normD12, runP1_colon_none rest htry]
            _ = ':' :: sqd false (runP1 rest) := by rw [sqd_cons_nondigit _ _ _ (by decide)]
            _ = ':' :: normDs (skel rest) := by rw [← normD12, ih rest hl]
            _ = normDs (skel (':' :: rest)) := by
                rw [skel_cons_nondigit ':' rest (by decide), normDs, normDs,
                  p1s_ch_nomatch ':' (skel rest) (Or.inr hnom), p2s_ch]
        · obtain ⟨d1, d2, hdec, hne1, hne2, hall1, hall2, hhd⟩ := tryLC_some rest rem htry
          have hlenrem : rem.length ≤ n := by
            have := tryLC_le rest rem htry
            omega
          have hskrest : skel rest = Seg.run :: Seg.ch ':' :: Seg.run :: skel rem := by
            rw [hdec]
            rw [skel_digits_append d1 _ hne1 hall1 (by intro x hx; simp at hx; rw [← hx]; decide)]
            rw [skel_cons_nondigit ':' _ (by decide)]
            rw [skel_digits_append d2 rem hne2 hall2 hhd]
          calc normD12 (':' :: rest)
              = sqd false (':' :: 'X' :: ':' :: 'X' :: runP1 rem) := by
                rw [normD12, runP1_colon_some rest rem htry]
            _ = ':' :: 'X' :: ':' :: 'X' :: sqd false (runP1 rem) := by
                rw [sqd_cons_nondigit _ _ _ (by decide), sqd_cons_nondigit _ _ _ (by decide),
                  sqd_cons_nondigit _ _ _ (by decide), sqd_cons_nondigit _ _ _ (by decide)]
            _ = ':' :: 'X' :: ':' :: 'X' :: normDs (skel rem) := by
                rw [← normD12, ih rem hlenrem]
            _ = normDs (skel (':' :: rest)) := by
                rw [skel_cons_nondigit ':' rest (by decide), hskrest, normDs, normDs,
                  p1s_match, p2s_ch, p2s_ch, p2s_ch, p2s_ch]
      · have hcc : (c == ':') = false := by simpa using hc
        calc normD12 (c :: rest)
            = sqd false (c :: runP1 rest) := by rw [normD12, runP1_cons_ne c rest hcc]
          _ = c :: sqd false (runP1 rest) := by rw [sqd_cons_nondigit _ _ _ hcd2]
          _ = c :: normDs (skel rest) := by rw [← normD12, ih rest hl]
          _ = normDs (skel (c :: rest)) := by
              rw [skel_cons_nondigit c rest hcd2, normDs, normDs,
                p1s_ch_nomatch c (skel rest) (Or.inl hc), p2s_ch]

theorem normD12_congr (l1 l2 : List Char) (h : skel l1 = skel l2) :
    normD12 l1 = normD12 l2 := by
  rw [normD12_eq_skel l1.length l1 (Nat.le_refl _),
    normD12_eq_skel l2.length l2 (Nat.le_refl _), h]

theorem sqd_false_digit_cons (c : Char) (l : List Char) (hc : c.isDigit = true) :
    sqd false (c :: l) = 'N' :: sqd true l := by
  simp [sqd, hc]

theorem sqd_true_digit_cons (c : Char) (l : List Char) (hc : c.isDigit = true) :
    sqd true (c :: l) = sqd true l := by
  simp [sqd, hc]

theorem tryLC_split (q : Char) (hq : q.isDigit = false) (hqc : q ≠ ':')
    (u v : List Char) :
    tryLC (u ++ q :: v) = (tryLC u).map (fun r => r ++ q :: v) := by
  rcases htu : tryLC u with _ | r
  · rcases hlc : tryLC (u ++ q :: v) with _ | rem
    · rfl
    · exfalso
      obtain ⟨d1, d2, hs, hne1, hne2, ha1, ha2, hhd⟩ := tryLC_some _ _ hlc
      have hs2 : u ++ q :: v = (d1 ++ ':' :: d2) ++ rem := by rw [hs]; simp
      have hqw : q ∉ d1 ++ ':' :: d2 := by
        intro hmem
        rcases List.mem_append.mp hmem with hm | hm
        · have := ha1 q hm
          rw [hq] at this
          cases this
        · rcases List.mem_cons.mp hm with hm | hm
          · exact hqc hm
          · have := ha2 q hm
            rw [hq] at this
            cases this
      have hlen : (d1 ++ ':' :: d2).length ≤ u.length := by
        by_contra hlt
        push_neg at hlt
        have h1 : (u ++ q :: v)[u.length]? = some q := by
          rw [List.getElem?_append_right (Nat.le_refl u.length)]
          simp
        rw [hs2, List.getElem?_append_left hlt] at h1
        exact hqw (List.getElem?_mem h1)
      have htake : u.take (d1 ++ ':' :: d2).length = d1 ++ ':' :: d2 := by
        have e := congrArg (List.take (d1 ++ ':' :: d2).length) hs2
        rw [List.take_append_of_le_length hlen, List.take_left] at e
        exact e
      have hdrop : u.drop (d1 ++ ':' :: d2).length ++ q :: v = rem := by
        have e := congrArg (List.drop (d1 ++ ':' :: d2).length) hs2
        rw [List.drop_append_of_le_length hlen, List.drop_left] at e
        exact e
      obtain ⟨r, hu, hremr⟩ :
          ∃ r, u = d1 ++ ':' :: (d2 ++ r) ∧ rem = r ++ q :: v := by
        refine ⟨u.drop (d1 ++ ':' :: d2).length, ?_, hdrop.symm⟩
        conv_lhs => rw [← List.take_append_drop (d1 ++ ':' :: d2).length u, htake]
        simp
      have hh5 : ∀ c, r.head? = some c → ¬ c.isDigit := by
        rcases r with _ | ⟨a, r2⟩
        · intro c hc
          cases hc
        · intro c hc
          simp only [List.head?_cons, Option.some.injEq] at hc
          subst hc
          refine hhd a ?_
          rw [hremr]
          rfl
      have hsome : tryLC u = some r := by
        rw [hu]
        exact tryLC_build d1 d2 r hne1 hne2 ha1 ha2 hh5
      rw [htu] at hsome
      cases hsome
  · obtain ⟨d1, d2, hs, hne1, hne2, ha1, ha2, hhd⟩ := tryLC_some u r htu
    have hh5 : ∀ c, (r ++ q :: v).head? = some c → ¬ c.isDigit := by
      rcases r with _ | ⟨a, r2⟩
      · intro c hc
        simp only [List.nil_append, List.head?_cons, Option.some.injEq] at hc
        subst hc
        simp [hq]
      · intro c hc
        simp only [List.cons_append, List.head?_cons, Option.some.injEq] at hc
        subst hc
        exact hhd a rfl
    have hrw : u ++ q :: v = d1 ++ ':' :: (d2 ++ (r ++ q :: v)) := by
      rw [hs]
      simp
    rw [hrw, tryLC_build d1 d2 (r ++ q :: v) hne1 hne2 ha1 ha2 hh5]
    rfl

theorem sqd_split (q : Char) (hq : q.isDigit = false) :
    ∀ (u : List Char) (b : Bool) (v : List Char),
    sqd b (u ++ q :: v) = sqd b u ++ q :: sqd false v := by
  intro u
  induction u with
  | nil =>
    intro b v
    rw [List.nil_append, sqd_cons_nondigit b q v hq]
    rfl
  | cons c u2 ih =>
    intro b v
    by_cases hc : c.isDigit
    · cases b
      · rw [List.cons_append, sqd_false_digit_cons c _ hc, sqd_false_digit_cons c u2 hc,
          ih true v]
        rfl
      · rw [List.cons_append, sqd_true_digit_cons c _ hc, sqd_true_digit_cons c u2 hc,
          ih true v]
    · have hc2 : c.isDigit = false := by simpa using hc
      rw [List.cons_append, sqd_cons_nondigit b c _ hc2, sqd_cons_nondigit b c u2 hc2,
        ih false v]
      rfl

theorem p1_split (q : Char) (hq : q.isDigit = false) (hqc : (q == ':') = false) :
    ∀ (n : Nat) (u v : List Char), u.length ≤ n →
    runP1 (u ++ q :: v) = runP1 u ++ q :: runP1 v := by
  intro n
  induction n with
  | zero =>
    intro u v h
    have : u = [] := List.length_eq_zero.mp (Nat.le_zero.mp h)
    subst this
    rw [List.nil_append, runP1_cons_ne q v hqc, runP1_nil, List.nil_append]
  | succ n ih =>
    intro u v hu
    rcases u with _ | ⟨c, rest⟩
    · rw [List.nil_append, runP1_cons_ne q v hqc, runP1_nil, List.nil_append]
    simp only [List.length_cons, Nat.succ_le_succ_iff] at hu
    by_cases hc : c == ':'
    · have hc2 : c = ':' := by simpa using hc
      subst hc2
      have hqne : q ≠ ':' := by simpa using hqc
      have hsplit := tryLC_split q hq hqne rest v
      rcases htry : tryLC rest with _ | r
      · rw [htry, Option.map_none'] at hsplit
        rw [List.cons_append, runP1_colon_none _ hsplit, runP1_colon_none rest htry,
          ih rest v hu, List.cons_append]
      · rw [htry, Option.map_some'] at hsplit
        have hr := tryLC_le rest r htry
        rw [List.cons_append, runP1_colon_some _ _ hsplit, runP1_colon_some rest r htry,
          ih r v (Nat.le_trans hr hu)]
        simp
    · have hc2 : (c == ':') = false := by simpa using hc
      rw [List.cons_append, runP1_cons_ne c _ hc2, runP1_cons_ne c rest hc2,
        ih rest v hu, List.cons_append]

theorem normD12_split (q : Char) (hq : q.isDigit = false) (hqc : (q == ':') = false)
    (u v : List Char) :
    normD12 (u ++ q :: v) = normD12 u ++ q :: normD12 v := by
  rw [normD12, p1_split q hq hqc u.length u v (Nat.le_refl _),
    sqd_split q hq (runP1 u) false (runP1 v)]
  rfl

theorem quote_nondigit (c : Char) (h : c ∈ quoteChars) : c.isDigit = false := by
  simp only [quoteChars, List.mem_cons, List.not_mem_nil, or_false] at h
  rcases h with h | h | h <;> subst h <;> decide

theorem quote_ne_colon (c : Char) (h : c ∈ quoteChars) : (c == ':') = false := by
  simp only [quoteChars, List.mem_cons, List.not_mem_nil, or_false] at h
  rcases h with h | h | h <;> subst h <;> decide

theorem normD12_renderLay : ∀ (spans : List (SpanT × List Char)) (o : List Char),
    (∀ p ∈ spans, p.1.q ∈ quoteChars) →
    normD12 (renderLay o spans) = renderLay (normD12 o) (mapD spans) := by
  intro spans
  induction spans with
  | nil =>
    intro o h
    simp [renderLay, renderSpans, mapD]
  | cons p rest ih =>
    rcases p with ⟨sp, o2⟩
    intro o h
    have hqq : sp.q ∈ quoteChars := h (sp, o2) (List.mem_cons_self _ _)
    have hqd := quote_nondigit sp.q hqq
    have hqc := quote_ne_colon sp.q hqq
    have hrest : ∀ p ∈ rest, p.1.q ∈ quoteChars :=
      fun p hp => h p (List.mem_cons_of_mem _ hp)
    have e := ih o2 hrest
    simp only [renderLay] at e
    rw [renderLay, renderSpans]
    rw [show o ++ sp.q :: (sp.content ++ sp.q :: (o2 ++ renderSpans rest))
        = o ++ sp.q :: (sp.content ++ sp.q :: (o2 ++ renderSpans rest)) from rfl]
    rw [normD12_split sp.q hqd hqc o _,
      normD12_split sp.q hqd hqc sp.content (o2 ++ renderSpans rest), e]
    simp [renderLay, renderSpans, mapD]

theorem pQ_zero (q : Char) (l : List Char) : pQ q 0 l = l := rfl

theorem pQ_succ_ne (q : Char) (fuel : Nat) (c : Char) (l : List Char)
    (hc : (c == q) = false) : pQ q (fuel + 1) (c :: l) = c :: pQ q fuel l := by
  simp [pQ, hc]

theorem pQ_succ_open_some (q : Char) (fuel : Nat) (l rem : List Char)
    (h : afterClose q l = some rem) :
    pQ q (fuel + 1) (q :: l) = 'S' :: 'T' :: 'R' :: pQ q fuel rem := by
  simp [pQ, h]

theorem pQ_succ_open_none (q : Char) (fuel : Nat) (l : List Char)
    (h : afterClose q l = none) :
    pQ q (fuel + 1) (q :: l) = q :: pQ q fuel l := by
  simp [pQ, h]

theorem afterClose_lt (q : Char) (s t : List Char) (h : afterClose q s = some t) :
    t.length < s.length := by
  unfold afterClose at h
  rcases hdw : s.dropWhile (fun c => !(c == q)) with _ | ⟨x, t2⟩
  · rw [hdw] at h
    cases h
  · rw [hdw] at h
    simp only [Option.some.injEq] at h
    subst h
    have hle : (x :: t2).length ≤ s.length := by
      rw [← hdw]
      exact length_dropWhile_le _ s
    simp only [List.length_cons] at hle
    omega

theorem pQ_fuel_eq (q : Char) (f1 : Nat) : ∀ (f2 : Nat) (l : List Char),
    l.length ≤ f1 → l.length ≤ f2 → pQ q f1 l = pQ q f2 l := by
  induction f1 with
  | zero =>
    intro f2 l h1 h2
    have : l = [] := List.length_eq_zero.mp (Nat.le_zero.mp h1)
    subst this
    cases f2 <;> rfl
  | succ n ih =>
    intro f2 l h1 h2
    rcases l with _ | ⟨c, rest⟩
    · cases f2 <;> rfl
    rcases f2 with _ | f2
    · simp at h2
    simp only [List.length_cons, Nat.succ_le_succ_iff] at h1 h2
    by_cases hc : c == q
    · have hc2 : c = q := by simpa using hc
      subst hc2
      rcases hac : afterClose c rest with _ | rem
      · rw [pQ_succ_open_none c n rest hac, pQ_succ_open_none c f2 rest hac,
          ih f2 rest h1 h2]
      · have hlt := afterClose_lt c rest rem hac
        rw [pQ_succ_open_some c n rest rem hac, pQ_succ_open_some c f2 rest rem hac,
          ih f2 rem (by omega) (by omega)]
    · have hc2 : (c == q) = false := by simpa using hc
      rw [pQ_succ_ne q n c rest hc2, pQ_succ_ne q f2 c rest hc2, ih f2 rest h1 h2]

theorem runPQ_fuel (q : Char) (fuel : Nat) (l : List Char) (h : l.length ≤ fuel) :
    pQ q fuel l = runPQ q l :=
  pQ_fuel_eq q fuel l.length l h (Nat.le_refl _)

theorem runPQ_nil (q : Char) : runPQ q [] = [] := rfl

theorem runPQ_cons_ne (q c : Char) (l : List Char) (hc : (c == q) = false) :
    runPQ q (c :: l) = c :: runPQ q l := by
  show pQ q (l.length + 1) (c :: l) = c :: runPQ q l
  rw [pQ_succ_ne q l.length c l hc]
  rfl

theorem runPQ_open_some (q : Char) (l rem : List Char)
    (h : afterClose q l = some rem) :
    runPQ q (q :: l) = 'S' :: 'T' :: 'R' :: runPQ q rem := by
  show pQ q (l.length + 1) (q :: l) = _
  rw [pQ_succ_open_some q l.length l rem h,
    runPQ_fuel q l.length rem (Nat.le_of_lt (afterClose_lt q l rem h))]

theorem dropWhile_pred_append (p : Char → Bool) (d y : List Char)
    (hd : ∀ c ∈ d, p c = true)
    (hy : ∀ c, y.head? = some c → p c = false) :
    (d ++ y).dropWhile p = y := by
  induction d with
  | nil =>
    rcases y with _ | ⟨c, r⟩
    · rfl
    · rw [List.nil_append, List.dropWhile_cons, if_neg]
      rw [hy c rfl]
      simp
  | cons c d2 ih =>
    rw [List.cons_append, List.dropWhile_cons, if_pos (hd c (List.mem_cons_self c d2))]
    exact ih (fun x hx => hd x (List.mem_cons_of_mem c hx))

theorem afterClose_some (q : Char) (content tail : List Char) (hf : q ∉ content) :
    afterClose q (content ++ q :: tail) = some tail := by
  unfold afterClose
  rw [dropWhile_pred_append (fun c => !(c == q)) content (q :: tail)
    (by
      intro c hc
      have : c ≠ q := fun he => hf (he ▸ hc)
      simp [this])
    (by
      intro c hc
      simp only [List.head?_cons, Option.some.injEq] at hc
      subst hc
      simp)]

theorem runPQ_no_q (q : Char) (l : List Char) (h : q ∉ l) : runPQ q l = l := by
  induction l with
  | nil => rfl
  | cons c r ih =>
    have hc : (c == q) = false := by
      have : c ≠ q := fun he => h (he ▸ List.mem_cons_self c r)
      simpa using this
    rw [runPQ_cons_ne q c r hc, ih (fun hm => h (List.mem_cons_of_mem c hm))]

theorem runPQ_append_free (q : Char) (u v : List Char) (h : q ∉ u) :
    runPQ q (u ++ v) = u ++ runPQ q v := by
  induction u with
  | nil => rfl
  | cons c u2 ih =>
    have hc : (c == q) = false := by
      have : c ≠ q := fun he => h (he ▸ List.mem_cons_self c u2)
      simpa using this
    rw [List.cons_append, runPQ_cons_ne q c _ hc,
      ih (fun hm => h (List.mem_cons_of_mem c hm)), List.cons_append]

theorem eraseLay_dissolve (qc : Char) (sp : SpanT) (o o2 : List Char)
    (rest : List (SpanT × List Char)) (h : (sp.q == qc) = true) :
    eraseLay qc o ((sp, o2) :: rest) = eraseLay qc (o ++ STRc ++ o2) rest := by
  simp [eraseLay, h]

theorem eraseLay_keep (qc : Char) (sp : SpanT) (o o2 : List Char)
    (rest : List (SpanT × List Char)) (h : (sp.q == qc) = false) :
    eraseLay qc o ((sp, o2) :: rest)
      = (o, (sp, (eraseLay qc o2 rest).1) :: (eraseLay qc o2 rest).2) := by
  rcases he : eraseLay qc o2 rest with ⟨a, b⟩
  simp [eraseLay, h, he]

theorem runPQ_eraseLay (qc : Char) (hstr : qc ∉ STRc) :
    ∀ (spans : List (SpanT × List Char)) (o : List Char),
    qc ∉ o →
    (∀ p ∈ spans, qc ∉ p.1.content ∧ qc ∉ p.2) →
    runPQ qc (renderLay o spans)
      = renderLay (eraseLay qc o spans).1 (eraseLay qc o spans).2 := by
  intro spans
  induction spans with
  | nil =>
    intro o ho hs
    simp only [renderLay, renderSpans, List.append_nil, eraseLay]
    exact runPQ_no_q qc o ho
  | cons p rest ih =>
    rcases p with ⟨sp, o2⟩
    intro o ho hs
    have hc : qc ∉ sp.content := (hs (sp, o2) (List.mem_cons_self _ _)).1
    have ho2 : qc ∉ o2 := (hs (sp, o2) (List.mem_cons_self _ _)).2
    have hrest : ∀ p ∈ rest, qc ∉ p.1.content ∧ qc ∉ p.2 :=
      fun p hp => hs p (List.mem_cons_of_mem _ hp)
    by_cases hq : (sp.q == qc) = true
    · have hqe : sp.q = qc := by simpa using hq
      rw [eraseLay_dissolve qc sp o o2 rest hq]
      rw [renderLay, renderSpans, hqe]
      rw [runPQ_append_free qc o _ ho]
      rw [runPQ_open_some qc _ _
        (afterClose_some qc sp.content (o2 ++ renderSpans rest) hc)]
      have hfree : qc ∉ o ++ STRc ++ o2 := by
        intro hm
        rcases List.mem_append.mp hm with hm | hm
        · rcases List.mem_append.mp hm with hm | hm
          · exact ho hm
          · exact hstr hm
        · exact ho2 hm
      have e := ih (o ++ STRc ++ o2) hfree hrest
      simp only [renderLay] at e ⊢
      rw [runPQ_append_free qc (o ++ STRc ++ o2) _ hfree] at e
      rw [runPQ_append_free qc o2 _ ho2, ← e]
      simp [STRc]
    · have hq2 : (sp.q == qc) = false := by simpa using hq
      rw [eraseLay_keep qc sp o o2 rest hq2]
      rw [renderLay, renderSpans]
      rw [runPQ_append_free qc o _ ho]
      rw [runPQ_cons_ne qc sp.q _ hq2]
      rw [runPQ_append_free qc sp.content _ hc]
      rw [runPQ_cons_ne qc sp.q _ hq2]
      have e := ih o2 ho2 hrest
      simp only [renderLay] at e
      rw [e]
      simp [renderLay, renderSpans]

theorem mem_p1 : ∀ (n : Nat) (l : List Char) (c : Char), c ∈ p1 n l →
    c ∈ l ∨ c = ':' ∨ c = 'X' := by
  intro n
  induction n with
  | zero => intro l c h; exact Or.inl h
  | succ n ih =>
    intro l c h
    rcases l with _ | ⟨a, rest⟩
    · exact Or.inl h
    by_cases ha : a == ':'
    · have ha2 : a = ':' := by simpa using ha
      subst ha2
      rcases htry : tryLC rest with _ | rem
      · rw [p1_succ_colon_none n rest htry] at h
        rcases List.mem_cons.mp h with h | h
        · exact Or.inr (Or.inl h)
        · rcases ih rest c h with h | h
          · exact Or.inl (List.mem_cons_of_mem _ h)
          · exact Or.inr h
      · rw [p1_succ_colon_some n rest rem htry] at h
        rcases List.mem_cons.mp h with h | h
        · exact Or.inr (Or.inl h)
        rcases List.mem_cons.mp h with h | h
        · exact Or.inr (Or.inr h)
        rcases List.mem_cons.mp h with h | h
        · exact Or.inr (Or.inl h)
        rcases List.mem_cons.mp h with h | h
        · exact Or.inr (Or.inr h)
        rcases ih rem c h with h | h
        · obtain ⟨d1, d2, hdec, _, _, _, _, _⟩ := tryLC_some rest rem htry
          refine Or.inl (List.mem_cons_of_mem _ ?_)
          rw [hdec]
          simp [h]
        · exact Or.inr h
    · have ha2 : (a == ':') = false := by simpa using ha
      rw [p1_succ_ne n a rest ha2] at h
      rcases List.mem_cons.mp h with h | h
      · exact Or.inl (h ▸ List.mem_cons_self a rest)
      · rcases ih rest c h with h | h
        · exact Or.inl (List.mem_cons_of_mem _ h)
        · exact Or.inr h

theorem mem_sqd : ∀ (l : List Char) (b : Bool) (c : Char), c ∈ sqd b l →
    c ∈ l ∨ c = 'N' := by
  intro l
  induction l with
  | nil => intro b c h; exact absurd h (List.not_mem_nil c)
  | cons a r ih =>
    intro b c h
    by_cases ha : a.isDigit
    · cases b
      · rw [sqd_false_digit_cons a r ha] at h
        rcases List.mem_cons.mp h with h | h
        · exact Or.inr h
        · rcases ih true c h with h | h
          · exact Or.inl (List.mem_cons_of_mem _ h)
          · exact Or.inr h
      · rw [sqd_true_digit_cons a r ha] at h
        rcases ih true c h with h | h
        · exact Or.inl (List.mem_cons_of_mem _ h)
        · exact Or.inr h
    · rw [sqd_cons_nondigit b a r (by simpa using ha)] at h
      rcases List.mem_cons.mp h with h | h
      · exact Or.inl (h ▸ List.mem_cons_self a r)
      · rcases ih false c h with h | h
        · exact Or.inl (List.mem_cons_of_mem _ h)
        · exact Or.inr h

theorem quoteFree_normD12 (l : List Char) (h : quoteFree l) : quoteFree (normD12 l) := by
  intro c hc
  rcases mem_sqd (runP1 l) false c hc with hc2 | hc2
  · rcases mem_p1 l.length l c hc2 with hc3 | hc3
    · exact h c hc3
    · rcases hc3 with hc3 | hc3 <;> subst hc3 <;> decide
  · subst hc2
    decide

theorem quoteFree_append (a b : List Char) (ha : quoteFree a) (hb : quoteFree b) :
    quoteFree (a ++ b) := by
  intro c hc
  rcases List.mem_append.mp hc with h | h
  · exact ha c h
  · exact hb c h

theorem quoteFree_STRc : quoteFree STRc := by
  show ∀ c ∈ STRc, c ∉ quoteChars
  decide

theorem skel_eq_nil_iff (l : List Char) : skel l = [] ↔ l = [] := by
  constructor
  · intro h
    rcases l with _ | ⟨c, r⟩
    · rfl
    · by_cases hc : c.isDigit
      · rw [skel_cons_digit c r hc] at h
        cases h
      · rw [skel_cons_nondigit c r (by simpa using hc)] at h
        cases h
  · intro h
    subst h
    rfl

theorem renderLay_eq_nil (o : List Char) (spans : List (SpanT × List Char)) :
    renderLay o spans = [] ↔ o = [] ∧ spans = [] := by
  rw [renderLay, List.append_eq_nil]
  constructor
  · rintro ⟨h1, h2⟩
    refine ⟨h1, ?_⟩
    rcases spans with _ | ⟨⟨sp, o2⟩, rest⟩
    · rfl
    · simp [renderSpans] at h2
  · rintro ⟨h1, h2⟩
    subst h1
    subst h2
    exact ⟨rfl, rfl⟩

theorem similarSpans_nil (s1 s2 : List (SpanT × List Char)) (h : SimilarSpans s1 s2) :
    s1 = [] ↔ s2 = [] := by
  rcases s1 with _ | ⟨⟨a1, b1⟩, r1⟩ <;> rcases s2 with _ | ⟨⟨a2, b2⟩, r2⟩
  · simp
  · exact h.elim
  · exact h.elim
  · simp

theorem eqSpans_nil_left (s2 : List (SpanT × List Char)) (h : EqSpans [] s2) : s2 = [] := by
  rcases s2 with _ | ⟨⟨a, b⟩, r⟩
  · rfl
  · exact h.elim

theorem mapD_eq_of_similar : ∀ (s1 s2 : List (SpanT × List Char)),
    SimilarSpans s1 s2 → EqSpans (mapD s1) (mapD s2) := by
  intro s1
  induction s1 with
  | nil =>
    intro s2 h
    rcases s2 with _ | ⟨⟨a, b⟩, r⟩
    · exact trivial
    · exact h.elim
  | cons p r1 ih =>
    rcases p with ⟨sp1, o1⟩
    intro s2 h
    rcases s2 with _ | ⟨⟨sp2, o2⟩, r2⟩
    · exact h.elim
    · obtain ⟨hq, hsk, hr⟩ := h
      exact ⟨hq, normD12_congr o1 o2 hsk, ih r2 hr⟩

theorem mapD_pres (P : Char → Prop) : ∀ (s : List (SpanT × List Char)),
    (∀ p ∈ s, P p.1.q ∧ quoteFree p.1.content ∧ quoteFree p.2) →
    ∀ p ∈ mapD s, P p.1.q ∧ quoteFree p.1.content ∧ quoteFree p.2 := by
  intro s
  induction s with
  | nil => intro h p hp; exact absurd hp (List.not_mem_nil p)
  | cons x r ih =>
    rcases x with ⟨sp, o2⟩
    intro h p hp
    rcases List.mem_cons.mp hp with hp | hp
    · subst hp
      refine ⟨?_, ?_, ?_⟩
      · exact (h (sp, o2) (List.mem_cons_self _ _)).1
      · exact quoteFree_normD12 sp.content (h (sp, o2) (List.mem_cons_self _ _)).2.1
      · exact quoteFree_normD12 o2 (h (sp, o2) (List.mem_cons_self _ _)).2.2
    · exact ih (fun p2 hp2 => h p2 (List.mem_cons_of_mem _ hp2)) p hp

theorem eraseLay_pres (qc : Char) (P : Char → Prop) :
    ∀ (s : List (SpanT × List Char)) (o : List Char), quoteFree o →
    (∀ p ∈ s, P p.1.q ∧ quoteFree p.1.content ∧ quoteFree p.2) →
    quoteFree (eraseLay qc o s).1 ∧
    ∀ p ∈ (eraseLay qc o s).2,
      (P p.1.q ∧ p.1.q ≠ qc) ∧ quoteFree p.1.content ∧ quoteFree p.2 := by
  intro s
  induction s with
  | nil =>
    intro o ho h
    exact ⟨ho, fun p hp => absurd hp (List.not_mem_nil p)⟩
  | cons x r ih =>
    rcases x with ⟨sp, o2⟩
    intro o ho h
    have hhd := h (sp, o2) (List.mem_cons_self _ _)
    have hrest : ∀ p ∈ r, P p.1.q ∧ quoteFree p.1.content ∧ quoteFree p.2 :=
      fun p hp => h p (List.mem_cons_of_mem _ hp)
    by_cases hq : (sp.q == qc) = true
    · rw [eraseLay_dissolve qc sp o o2 r hq]
      exact ih (o ++ STRc ++ o2)
        (quoteFree_append _ o2 (quoteFree_append o STRc ho quoteFree_STRc) hhd.2.2) hrest
    · have hq2 : (sp.q == qc) = false := by simpa using hq
      rw [eraseLay_keep qc sp o o2 r hq2]
      refine ⟨ho, ?_⟩
      intro p hp
      rcases List.mem_cons.mp hp with hp | hp
      · subst hp
        exact ⟨⟨hhd.1, by simpa using hq2⟩, hhd.2.1, (ih o2 hhd.2.2 hrest).1⟩
      · exact (ih o2 hhd.2.2 hrest).2 p hp

theorem eraseLay_eqSpans (qc : Char) :
    ∀ (s1 s2 : List (SpanT × List Char)) (o : List Char), EqSpans s1 s2 →
    (eraseLay qc o s1).1 = (eraseLay qc o s2).1 ∧
    EqSpans (eraseLay qc o s1).2 (eraseLay qc o s2).2 := by
  intro s1
  induction s1 with
  | nil =>
    intro s2 o h
    have he : s2 = [] := eqSpans_nil_left s2 h
    subst he
    exact ⟨rfl, trivial⟩
  | cons x r1 ih =>
    rcases x with ⟨sp1, o1⟩
    intro s2 o h
    rcases s2 with _ | ⟨⟨sp2, o2⟩, r2⟩
    · exact h.elim
    obtain ⟨hq, ho12, hr⟩ := h
    subst ho12
    by_cases hb : (sp1.q == qc) = true
    · have hb2 : (sp2.q == qc) = true := by rw [← hq]; exact hb
      rw [eraseLay_dissolve qc sp1 o o1 r1 hb, eraseLay_dissolve qc sp2 o o1 r2 hb2]
      exact ih r2 (o ++ STRc ++ o1) hr
    · have hb1 : (sp1.q == qc) = false := by simpa using hb
      have hb2 : (sp2.q == qc) = false := by rw [← hq]; exact hb1
      rw [eraseLay_keep qc sp1 o o1 r1 hb1, eraseLay_keep qc sp2 o o1 r2 hb2]
      exact ⟨rfl, hq, (ih r2 o1 hr).1, (ih r2 o1 hr).2⟩

/-- C2 counterexample to the claim as stated: the two messages differ only
in the contents of one double-quoted string literal (the prefix, the suffix
and the error type are identical), yet hashError differs, because the
single-quote pass of the source runs before the double-quote pass and the
apostrophe inside the first literal is taken as an opening single quote. -/
theorem hashError_counterexample :
    (∃ pre c1 c2 post : List Char,
      String.data "x \x22don\x27t\x22 \x27y\x27"
        = pre ++ dquoteC :: (c1 ++ dquoteC :: post) ∧
      String.data "x \x22cant\x22 \x27y\x27"
        = pre ++ dquoteC :: (c2 ++ dquoteC :: post)) ∧
    hashError ⟨"AssertionError", "x \x22don\x27t\x22 \x27y\x27"⟩
      ≠ hashError ⟨"AssertionError", "x \x22cant\x22 \x27y\x27"⟩ := by
  constructor
  · exact ⟨String.data "x ", String.data "don\x27t", String.data "cant",
      String.data " \x27y\x27", by decide, by decide⟩
  · decide

/-- C2 (amended): hashError is invariant under variation of digit runs and
of quote-free quoted-literal contents.  A message is presented as a layout:
a quote-free unquoted chunk followed by quoted spans, each with a quote-free
following chunk.  If the unquoted chunks agree up to the contents of their
maximal digit runs (equal skeletons) and the span lists use the same quote
kinds in the same order with arbitrary quote-free contents, the hashError
results coincide, for any error types.  Determinism across calls is
definitional: hashError is a pure function of the message. -/
theorem hashError_similar (t1 t2 : String) (o1 o2 : List Char)
    (s1 s2 : List (SpanT × List Char))
    (hw1 : WFLay o1 s1) (hw2 : WFLay o2 s2)
    (ho : skel o1 = skel o2) (hs : SimilarSpans s1 s2) :
    hashError ⟨t1, String.mk (renderLay o1 s1)⟩
      = hashError ⟨t2, String.mk (renderLay o2 s2)⟩ := by
  obtain ⟨hfo1, hsp1⟩ := hw1
  obtain ⟨hfo2, hsp2⟩ := hw2
  by_cases hemp : renderLay o1 s1 = []
  · obtain ⟨ho1e, hs1e⟩ := (renderLay_eq_nil o1 s1).mp hemp
    have ho2e : o2 = [] := by
      apply (skel_eq_nil_iff o2).mp
      rw [← ho, ho1e]
      rfl
    have hs2e : s2 = [] := (similarSpans_nil s1 s2 hs).mp hs1e
    rw [hemp, (renderLay_eq_nil o2 s2).mpr ⟨ho2e, hs2e⟩]
    rfl
  · have hemp2 : renderLay o2 s2 ≠ [] := by
      intro h2
      obtain ⟨ho2e, hs2e⟩ := (renderLay_eq_nil o2 s2).mp h2
      apply hemp
      refine (renderLay_eq_nil o1 s1).mpr ⟨?_, ?_⟩
      · apply (skel_eq_nil_iff o1).mp
        rw [ho, ho2e]
        rfl
      · exact (similarSpans_nil s1 s2 hs).mpr hs2e
    have hOeq : normD12 o1 = normD12 o2 := normD12_congr o1 o2 ho
    have hd1 := normD12_renderLay s1 o1 (fun p hp => (hsp1 p hp).1)
    have hd2 := normD12_renderLay s2 o2 (fun p hp => (hsp2 p hp).1)
    rw [hOeq] at hd1
    have hE0 : EqSpans (mapD s1) (mapD s2) := mapD_eq_of_similar s1 s2 hs
    have hW1 := mapD_pres (fun c => c ∈ quoteChars) s1 hsp1
    have hW2 := mapD_pres (fun c => c ∈ quoteChars) s2 hsp2
    have hfO : quoteFree (normD12 o2) := quoteFree_normD12 o2 hfo2
    have hs1q : squoteC ∈ quoteChars := by simp [quoteChars]
    have hd1q : dquoteC ∈ quoteChars := by simp [quoteChars]
    have hb1q : bquoteC ∈ quoteChars := by simp [quoteChars]
    have hstr_s : squoteC ∉ STRc := by decide
    have hstr_d : dquoteC ∉ STRc := by decide
    have hstr_b : bquoteC ∉ STRc := by decide
    have hA1 := runPQ_eraseLay squoteC hstr_s (mapD s1) (normD12 o2)
      (fun hm => hfO squoteC hm hs1q)
      (fun p hp => ⟨fun hm => (hW1 p hp).2.1 squoteC hm hs1q,
        fun hm => (hW1 p hp).2.2 squoteC hm hs1q⟩)
    have hA2 := runPQ_eraseLay squoteC hstr_s (mapD s2) (normD12 o2)
      (fun hm => hfO squoteC hm hs1q)
      (fun p hp => ⟨fun hm => (hW2 p hp).2.1 squoteC hm hs1q,
        fun hm => (hW2 p hp).2.2 squoteC hm hs1q⟩)
    have hP1 := eraseLay_pres squoteC (fun c => c ∈ quoteChars) (mapD s1)
      (normD12 o2) hfO hW1
    have hP2 := eraseLay_pres squoteC (fun c => c ∈ quoteChars) (mapD s2)
      (normD12 o2) hfO hW2
    have hEq1 := eraseLay_eqSpans squoteC (mapD s1) (mapD s2) (normD12 o2) hE0
    rw [← hEq1.1] at hA2
    have hB1 := runPQ_eraseLay dquoteC hstr_d
      (eraseLay squoteC (normD12 o2) (mapD s1)).2
      (eraseLay squoteC (normD12 o2) (mapD s1)).1
      (fun hm => hP1.1 dquoteC hm hd1q)
      (fun p hp => ⟨fun hm => (hP1.2 p hp).2.1 dquoteC hm hd1q,
        fun hm => (hP1.2 p hp).2.2 dquoteC hm hd1q⟩)
    have hB2 := runPQ_eraseLay dquoteC hstr_d
      (eraseLay squoteC (normD12 o2) (mapD s2)).2
      (eraseLay squoteC (normD12 o2) (mapD s1)).1
      (fun hm => hP1.1 dquoteC hm hd1q)
      (fun p hp => ⟨fun hm => (hP2.2 p hp).2.1 dquoteC hm hd1q,
        fun hm => (hP2.2 p hp).2.2 dquoteC hm hd1q⟩)
    have hQ1 := eraseLay_pres dquoteC (fun c => c ∈ quoteChars ∧ c ≠ squoteC)
      (eraseLay squoteC (normD12 o2) (mapD s1)).2
      (eraseLay squoteC (normD12 o2) (mapD s1)).1 hP1.1 hP1.2
    have hQ2 := eraseLay_pres dquoteC (fun c => c ∈ quoteChars ∧ c ≠ squoteC)
      (eraseLay squoteC (normD12 o2) (mapD s2)).2
      (eraseLay squoteC (normD12 o2) (mapD s1)).1 hP1.1 hP2.2
    have hEq2 := eraseLay_eqSpans dquoteC
      (eraseLay squoteC (normD12 o2) (mapD s1)).2
      (eraseLay squoteC (normD12 o2) (mapD s2)).2
      (eraseLay squoteC (normD12 o2) (mapD s1)).1 hEq1.2
    rw [← hEq2.1] at hB2
    have hC1 := runPQ_eraseLay bquoteC hstr_b
      (eraseLay dquoteC (eraseLay squoteC (normD12 o2) (mapD s1)).1
        (eraseLay squoteC (normD12 o2) (mapD s1)).2).2
      (eraseLay dquoteC (eraseLay squoteC (normD12 o2) (mapD s1)).1
        (eraseLay squoteC (normD12 o2) (mapD s1)).2).1
      (fun hm => hQ1.1 bquoteC hm hb1q)
      (fun p hp => ⟨fun hm => (hQ1.2 p hp).2.1 bquoteC hm hb1q,
        fun hm => (hQ1.2 p hp).2.2 bquoteC hm hb1q⟩)
    have hC2 := runPQ_eraseLay bquoteC hstr_b
      (eraseLay dquoteC (eraseLay squoteC (normD12 o2) (mapD s1)).1
        (eraseLay squoteC (normD12 o2) (mapD s2)).2).2
      (eraseLay dquoteC (eraseLay squoteC (normD12 o2) (mapD s1)).1
        (eraseLay squoteC (normD12 o2) (mapD s1)).2).1
      (fun hm => hQ1.1 bquoteC hm hb1q)
      (fun p hp => ⟨fun hm => (hQ2.2 p hp).2.1 bquoteC hm hb1q,
        fun hm => (hQ2.2 p hp).2.2 bquoteC hm hb1q⟩)
    have hR1 := eraseLay_pres bquoteC
      (fun c => (c ∈ quoteChars ∧ c ≠ squoteC) ∧ c ≠ dquoteC)
      (eraseLay dquoteC (eraseLay squoteC (normD12 o2) (mapD s1)).1
        (eraseLay squoteC (normD12 o2) (mapD s1)).2).2
      (eraseLay dquoteC (eraseLay squoteC (normD12 o2) (mapD s1)).1
        (eraseLay squoteC (normD12 o2) (mapD s1)).2).1 hQ1.1 hQ1.2
    have hEq3 := eraseLay_eqSpans bquoteC
      (eraseLay dquoteC (eraseLay squoteC (normD12 o2) (mapD s1)).1
        (eraseLay squoteC (normD12 o2) (mapD s1)).2).2
      (eraseLay dquoteC (eraseLay squoteC (normD12 o2) (mapD s1)).1
        (eraseLay squoteC (normD12 o2) (mapD s2)).2).2
      (eraseLay dquoteC (eraseLay squoteC (normD12 o2) (mapD s1)).1
        (eraseLay squoteC (normD12 o2) (mapD s1)).2).1 hEq2.2
    have hV1 : (eraseLay bquoteC
        (eraseLay dquoteC (eraseLay squoteC (normD12 o2) (mapD s1)).1
          (eraseLay squoteC (normD12 o2) (mapD s1)).2).1
        (eraseLay dquoteC (eraseLay squoteC (normD12 o2) (mapD s1)).1
          (eraseLay squoteC (normD12 o2) (mapD s1)).2).2).2 = [] := by
      rcases hF : (eraseLay bquoteC
          (eraseLay dquoteC (eraseLay squoteC (normD12 o2) (mapD s1)).1
            (eraseLay squoteC (normD12 o2) (mapD s1)).2).1
          (eraseLay dquoteC (eraseLay squoteC (normD12 o2) (mapD s1)).1
            (eraseLay squoteC (normD12 o2) (mapD s1)).2).2).2 with _ | ⟨p, r⟩
      · rfl
      · exfalso
        have hm := hR1.2 p (by rw [hF]; exact List.mem_cons_self p r)
        obtain ⟨⟨⟨⟨hin, hns⟩, hnd⟩, hnb⟩, -⟩ := hm
        simp only [quoteChars, List.mem_cons, List.not_mem_nil, or_false] at hin
        rcases hin with hx | hx | hx
        · exact hns hx
        · exact hnd hx
        · exact hnb hx
    have hV2 : (eraseLay bquoteC
        (eraseLay dquoteC (eraseLay squoteC (normD12 o2) (mapD s1)).1
          (eraseLay squoteC (normD12 o2) (mapD s1)).2).1
        (eraseLay dquoteC (eraseLay squoteC (normD12 o2) (mapD s1)).1
          (eraseLay squoteC (normD12 o2) (mapD s2)).2).2).2 = [] := by
      have h := hEq3.2
      rw [hV1] at h
      exact eqSpans_nil_left _ h
    have hcore : normChars (renderLay o1 s1) = normChars (renderLay o2 s2) := by
      calc normChars (renderLay o1 s1)
          = renderLay
              (eraseLay bquoteC
                (eraseLay dquoteC (eraseLay squoteC (normD12 o2) (mapD s1)).1
                  (eraseLay squoteC (normD12 o2) (mapD s1)).2).1
                (eraseLay dquoteC (eraseLay squoteC (normD12 o2) (mapD s1)).1
                  (eraseLay squoteC (normD12 o2) (mapD s1)).2).2).1
              (eraseLay bquoteC
                (eraseLay dquoteC (eraseLay squoteC (normD12 o2) (mapD s1)).1
                  (eraseLay squoteC (normD12 o2) (mapD s1)).2).1
                (eraseLay dquoteC (eraseLay squoteC (normD12 o2) (mapD s1)).1
                  (eraseLay squoteC (normD12 o2) (mapD s1)).2).2).2 := by
            simp only [normChars]
            rw [hd1, hA1, hB1, hC1]
        _ = renderLay
              (eraseLay bquoteC
                (eraseLay dquoteC (eraseLay squoteC (normD12 o2) (mapD s1)).1
                  (eraseLay squoteC (normD12 o2) (mapD s1)).2).1
                (eraseLay dquoteC (eraseLay squoteC (normD12 o2) (mapD s1)).1
                  (eraseLay squoteC (normD12 o2) (mapD s2)).2).2).1
              (eraseLay bquoteC
                (eraseLay dquoteC (eraseLay squoteC (normD12 o2) (mapD s1)).1
                  (eraseLay squoteC (normD12 o2) (mapD s1)).2).1
                (eraseLay dquoteC (eraseLay squoteC (normD12 o2) (mapD s1)).1
                  (eraseLay squoteC (normD12 o2) (mapD s2)).2).2).2 := by
            rw [hV1, hV2, hEq3.1]
        _ = normChars (renderLay o2 s2) := by
            simp only [normChars]
            rw [hd2, hA2, hB2, hC2]
    have hne1 : String.mk (renderLay o1 s1) ≠ "" :=
      fun h => hemp (congrArg String.data h)
    have hne2 : String.mk (renderLay o2 s2) ≠ "" :=
      fun h => hemp2 (congrArg String.data h)
    simp only [hashError]
    rw [if_neg hne1, if_neg hne2]
    exact congrArg (fun l => some (String.mk l)) hcore

theorem hashError_similar_witness :
    hashError ⟨"AssertionError",
      String.mk (renderLay (String.data "expected 5 to be 7 in ")
        [({ q := dquoteC, content := String.data "abc1" },
          String.data " at x.js:1:2")])⟩
      = hashError ⟨"TypeError",
      String.mk (renderLay (String.data "expected 88 to be 9 in ")
        [({ q := dquoteC, content := String.data "xy" },
          String.data " at x.js:34:56")])⟩ :=
  hashError_similar "AssertionError" "TypeError" _ _ _ _
    (by decide) (by decide) (by decide) ⟨rfl, by decide, trivial⟩

end CompactLogger
